import Mathlib

/-!
Shallow embedding of mcelog's per-page corrected-memory-error accounting
engine (`page.c`): per-page error records in a bounded table with
cluster-granularity LRU eviction, leaky-bucket threshold detection, and a
sysfs-based page offliner.

The functions of `page.c` are translated directly: pure data, explicit
state passing, and an event trace recording the externally visible side
effects (sysfs writes and trigger dispatches).  External collaborators that
are not part of the sources (`leaky-bucket.c`, `rbtree.c`, `list.h`,
`sysfs.c`, the trigger subsystem, `mcelog.h`) are modelled from the spec as
injected parameters or trace events, as noted on each definition.
-/

/-- `#define PAGE_SHIFT 12` -/
def PAGE_SHIFT : Nat := 12

/-- `#define PAGE_SIZE (1UL << PAGE_SHIFT)` -/
def PAGE_SIZE : Nat := 2 ^ PAGE_SHIFT

/-- `addr &= ~((u64)PAGE_SIZE - 1)`: round an address down to its page
boundary.  For natural numbers clearing the low 12 bits is subtracting the
remainder mod `PAGE_SIZE`. -/
def pageAlign (a : Nat) : Nat := a - a % PAGE_SIZE

/-- `PAGE_ONLINE` of `enum { PAGE_ONLINE = 0, PAGE_OFFLINE = 1, PAGE_OFFLINE_FAILED = 2 }`. -/
def PAGE_ONLINE : Nat := 0

/-- `PAGE_OFFLINE` of the page-state enum. -/
def PAGE_OFFLINE : Nat := 1

/-- `PAGE_OFFLINE_FAILED` of the page-state enum. -/
def PAGE_OFFLINE_FAILED : Nat := 2

/-- The `page_state[]` string table.  Indices other than the three enum
values never occur (the C array would be out of bounds). -/
def page_state : Nat → String
  | 0 => "online"
  | 1 => "offline"
  | 2 => "offline-failed"
  | _ => ""

/-- `enum otype`: the offlining policies, in declaration order (`off`,
`account`, `soft`, `hard`, `soft-then-hard`). -/
inductive otype where
  | OFFLINE_OFF
  | OFFLINE_ACCOUNT
  | OFFLINE_SOFT
  | OFFLINE_HARD
  | OFFLINE_SOFT_THEN_HARD
deriving DecidableEq

/-- The numeric value of each `enum otype` constant; C comparisons such as
`offline <= OFFLINE_ACCOUNT` compare these values. -/
def otype.toNat : otype → Nat
  | .OFFLINE_OFF => 0
  | .OFFLINE_ACCOUNT => 1
  | .OFFLINE_SOFT => 2
  | .OFFLINE_HARD => 3
  | .OFFLINE_SOFT_THEN_HARD => 4

/-- Modelled from the spec: CPU family identifiers (`cputype` comes from
`mcelog.h`, which is not part of the sources).  Only the duplicate-APEI
quirk family `CPU_SANDY_BRIDGE_EP` is distinguished; all other families
fall through the quirk switch unconditionally. -/
inductive cputype_t where
  | CPU_SANDY_BRIDGE_EP
  | CPU_GENERIC (n : Nat)
deriving DecidableEq

/-- Modelled from the spec: the fields of `struct mce` that
`account_page_error` consumes (`mcelog.h` is not part of the sources).
The status bitfield is represented by the two bits the code reads,
`MCI_STATUS_ADDRV` and `MCI_STATUS_UC`. -/
structure Mce where
  addr : Nat
  time : Nat
  cpu : Nat
  extcpu : Nat
  bank : Nat
  status_addrv : Bool
  status_uc : Bool
  socketid : Nat
deriving DecidableEq

/-- `unsigned cpu = m->extcpu ? m->extcpu : m->cpu;` -/
def effcpu (m : Mce) : Nat := if m.extcpu ≠ 0 then m.extcpu else m.cpu

/-- `struct mempage`: one record per tracked faulty page.  The field
`count` is `ce.count` of the embedded `struct err_type`; the leaky-bucket
state `ce.bucket` is the opaque type parameter `β` (the bucket primitive is
external, see `Config`).  The intrusive `rb_node` is subsumed by the table
representation. -/
structure Mempage (β : Type) where
  offlined : Nat
  triggered : Bool
  addr : Nat
  count : Nat
  bucket : β
deriving DecidableEq

/-- `struct mempage_cluster`: a fixed-capacity group of `N` record slots
participating in the LRU list as a unit.  `slots` lists the page addresses
of the records initialized in this cluster in slot order, `mp_used` is the
C `mp_used` rotation counter, and `cid` is a unique identifier standing in
for the cluster's identity as a heap object. -/
structure Cluster where
  cid : Nat
  slots : List Nat
  mp_used : Nat
deriving DecidableEq

/-- `struct mempage_replacement` (the global is spelled `mp_repalcement`
in the source): replacement-rate bucket plus forced-eviction count. -/
structure MempageReplacement (β : Type) where
  bucket : β
  count : Nat
deriving DecidableEq

/-- The process-wide mutable state of `page.c`: the red-black tree of
mempages (represented as an address-sorted list, see `tblLookup`), the
cluster LRU list (most recently used first), the current allocation
cluster `mp_cluster` (by `cid`), a fresh-id counter for cluster
identities, `corr_err_counters`, and `mp_repalcement`. -/
structure PState (β : Type) where
  table : List (Mempage β)
  clusters : List Cluster
  cur : Option Nat
  next_cid : Nat
  corr_err_counters : Nat
  mp_repalcement : MempageReplacement β
deriving DecidableEq

/-- Externally visible side effects of the engine: a value written to a
sysfs offline node, or an operator trigger dispatched by the trigger
subsystem (`kind` is the C identifier string passed to the trigger layer,
`sync` its synchronous-wait flag). -/
inductive Ev where
  | sysfsWrite (node : String) (addr : Nat)
  | trigger (kind : String) (sync : Bool)
deriving DecidableEq

/-- Modelled from the spec: the configuration snapshot plus the external
collaborators injected as functions.  `bucket_account_page` and
`bucket_account_repl` are `__bucket_account` applied to
`page_trigger_conf` resp. `mp_replacement_trigger_conf` (the leaky-bucket
primitive of `leaky-bucket.c` is external: state in, increment and
timestamp in, updated state and crossed-this-call flag out);
`bucket_init` is the empty bucket state; `sysfs_write` is the kernel
interface of `sysfs.c`, returning the C result of writing an address to a
node (negative means failure).  `clusterN` is the compile-time cluster
capacity `N`. -/
structure Config (β : Type) where
  offline : otype
  cputype : cputype_t
  clusterN : Nat
  max_corr_err_counters : Nat
  bucket_init : β
  bucket_account_page : β → Nat → Nat → β × Bool
  bucket_account_repl : β → Nat → Nat → β × Bool
  sysfs_write : String → Nat → Int

/-- `kernel_offline[OFFLINE_SOFT]` -/
def soft_offline_node : String := "/sys/devices/system/memory/soft_offline_page"

/-- `kernel_offline[OFFLINE_HARD]` -/
def hard_offline_node : String := "/sys/devices/system/memory/hard_offline_page"

/-- The `kernel_offline[]` table; `OFFLINE_OFF` and `OFFLINE_ACCOUNT` have
no entry (NULL in C) and are never used as indices. -/
def kernel_offline : otype → String
  | .OFFLINE_SOFT => soft_offline_node
  | .OFFLINE_HARD => hard_offline_node
  | .OFFLINE_SOFT_THEN_HARD => soft_offline_node
  | _ => ""

/-- u64 addition `a + b` as in `addr + (i * PAGE_SIZE)`. -/
def u64add (a b : Nat) : Nat := (a + b) % 2 ^ 64

/-- u64 subtraction `a - b` as in `addr - (i * PAGE_SIZE)`. -/
def u64sub (a b : Nat) : Nat := (a + (2 ^ 64 - b % 2 ^ 64)) % 2 ^ 64

/-- `do_memory_offline`: write the page address to the sysfs node of the
chosen offline type; result is the `sysfs_write` return value, the trace
records the write. -/
def do_memory_offline (env : String → Nat → Int) (addr : Nat) (ty : otype) : Int × List Ev :=
  (env (kernel_offline ty) addr, [Ev.sysfsWrite (kernel_offline ty) addr])

/-- The loop body of `do_consecutive_memory_offline`, iterating
`i = 0 .. num_pages` (the fuel argument counts the remaining iterations,
`num_pages + 1 - i`).  Iteration 0 offlines the base page; iteration
`i ≥ 1` offlines `addr + i*PAGE_SIZE` then `addr - i*PAGE_SIZE`; any
failed write aborts with -1. -/
def do_consecutive_loop (env : String → Nat → Int) (addr : Nat) (ty : otype) :
    Nat → Nat → Int × List Ev
  | _, 0 => (0, [])
  | i, Nat.succ fuel =>
    if i = 0 then
      let rw := do_memory_offline env addr ty
      if rw.1 < 0 then (-1, rw.2)
      else
        let rest := do_consecutive_loop env addr ty (i + 1) fuel
        (rest.1, rw.2 ++ rest.2)
    else
      let rwp := do_memory_offline env (u64add addr (i * PAGE_SIZE)) ty
      if rwp.1 < 0 then (-1, rwp.2)
      else
        let rwn := do_memory_offline env (u64sub addr (i * PAGE_SIZE)) ty
        if rwn.1 < 0 then (-1, rwp.2 ++ rwn.2)
        else
          let rest := do_consecutive_loop env addr ty (i + 1) fuel
          (rest.1, rwp.2 ++ rwn.2 ++ rest.2)

/-- `do_consecutive_memory_offline(addr, num_pages, type)`: the source's
modification that offlines the 2*num_pages+1 page window around `addr`. -/
def do_consecutive_memory_offline (env : String → Nat → Int) (addr num_pages : Nat)
    (ty : otype) : Int × List Ev :=
  do_consecutive_loop env addr ty 0 (num_pages + 1)

/-- `const int num_consecutive_pages = 5;` in `memory_offline`. -/
def num_consecutive_pages : Nat := 5

/-- `memory_offline`: for `OFFLINE_SOFT_THEN_HARD`, soft-offline the single
page and fall back to a hard offline of the same address when the soft
write fails; for every other policy the source calls
`do_consecutive_memory_offline` with `num_consecutive_pages` (the
single-page `do_memory_offline` call is commented out). -/
def memory_offline (env : String → Nat → Int) (offline : otype) (addr : Nat) :
    Int × List Ev :=
  if offline = otype.OFFLINE_SOFT_THEN_HARD then
    let rw := do_memory_offline env addr .OFFLINE_SOFT
    if rw.1 < 0 then
      let rw2 := do_memory_offline env addr .OFFLINE_HARD
      (rw2.1, rw.2 ++ rw2.2)
    else (0, rw.2)
  else do_consecutive_memory_offline env addr num_consecutive_pages offline

/-- `offline_action`: no-op for policies up to `OFFLINE_ACCOUNT`; otherwise
run `memory_offline` and record the outcome in `mp->offlined`
(`PAGE_OFFLINE` on success, `PAGE_OFFLINE_FAILED` on failure). -/
def offline_action {β : Type} (cfg : Config β) (mp : Mempage β) (addr : Nat) :
    Mempage β × List Ev :=
  if cfg.offline.toNat ≤ otype.OFFLINE_ACCOUNT.toNat then (mp, [])
  else
    let rw := memory_offline cfg.sysfs_write cfg.offline addr
    if rw.1 < 0 then ({ mp with offlined := PAGE_OFFLINE_FAILED }, rw.2)
    else ({ mp with offlined := PAGE_OFFLINE }, rw.2)

/-- `mempage_lookup`: the red-black tree of `rbtree.c` is external code;
modelled from the spec as an ordered map over the address-sorted record
list (same lookup result, same in-order traversal). -/
def tblLookup {β : Type} (a : Nat) : List (Mempage β) → Option (Mempage β)
  | [] => none
  | p :: ps => if a = p.addr then some p else tblLookup a ps

/-- `mempage_insert` / `rb_insert_color`: sorted insertion by address; if
the address is already present the tree is left unchanged (as
`mempage_insert_lookup` returns the existing record without linking). -/
def tblInsert {β : Type} (p : Mempage β) : List (Mempage β) → List (Mempage β)
  | [] => [p]
  | q :: qs =>
    if p.addr < q.addr then p :: q :: qs
    else if p.addr = q.addr then q :: qs
    else q :: tblInsert p qs

/-- `rb_erase` by address: remove the record keyed `a` (first occurrence;
keys are distinct). -/
def tblErase {β : Type} (a : Nat) : List (Mempage β) → List (Mempage β)
  | [] => []
  | q :: qs => if q.addr = a then qs else q :: tblErase a qs

/-- In-place mutation of the record keyed `a` through the `mp` pointer:
replace it by `v` (which keeps the same address). -/
def setRecord {β : Type} (a : Nat) (v : Mempage β) (tbl : List (Mempage β)) :
    List (Mempage β) :=
  tbl.map fun q => if q.addr = a then v else q

/-- All page addresses resident in the given clusters, in cluster order. -/
def allSlots : List Cluster → List Nat
  | [] => []
  | c :: cs => c.slots ++ allSlots cs

/-- Find the cluster with identity `cid`. -/
def findCluster (cid : Nat) : List Cluster → Option Cluster
  | [] => none
  | c :: cs => if c.cid = cid then some c else findCluster cid cs

/-- Remove the cluster with identity `cid` from the LRU list (`list_del`). -/
def removeCluster (cid : Nat) : List Cluster → List Cluster
  | [] => []
  | c :: cs => if c.cid = cid then cs else c :: removeCluster cid cs

/-- Apply `f` to the cluster with identity `cid` (in-place mutation through
the cluster pointer). -/
def updateCluster (cid : Nat) (f : Cluster → Cluster) : List Cluster → List Cluster
  | [] => []
  | c :: cs => if c.cid = cid then f c :: cs else c :: updateCluster cid f cs

/-- `mempage_cluster_lru_list_update` (and `..._insert` on an
already-linked cluster, which the source also performs while filling a
cluster): move the cluster to the front of the LRU list; no-op when it is
already first or not linked.  The LRU list of `list.h` is external code;
modelled from the spec as the order of `PState.clusters`. -/
def lruPromote (cid : Nat) (cls : List Cluster) : List Cluster :=
  match findCluster cid cls with
  | none => cls
  | some c => c :: removeCluster cid cls

/-- `to_cluster(mp)` followed by `mempage_cluster_lru_list_update` on a
lookup hit: promote the cluster holding the record with address `addr`. -/
def lru_touch (addr : Nat) (cls : List Cluster) : List Cluster :=
  match cls.find? (fun c => c.slots.contains addr) with
  | some c => lruPromote c.cid cls
  | none => cls

/-- `mempage_alloc` up to the slot grab: choose the current cluster, or
mmap a fresh zeroed cluster when there is none or it is full.  Returns the
chosen cluster, the cluster list containing it, and the fresh-id counter. -/
def mempage_alloc_choose {β : Type} (cfg : Config β) (s : PState β) :
    Cluster × List Cluster × Nat :=
  match Option.bind s.cur (fun cid => findCluster cid s.clusters) with
  | some c =>
    if c.mp_used = cfg.clusterN then
      (⟨s.next_cid, [], 0⟩, ⟨s.next_cid, [], 0⟩ :: s.clusters, s.next_cid + 1)
    else (c, s.clusters, s.next_cid)
  | none => (⟨s.next_cid, [], 0⟩, ⟨s.next_cid, [], 0⟩ :: s.clusters, s.next_cid + 1)

/-- The `mp_cluster->mp_used == N` branch of `mempage_replace`: reuse the
last cluster of the LRU list and reset its `mp_used` rotation.  An empty
LRU list cannot occur (the C code would dereference a null pointer). -/
def resetLastCluster (cls : List Cluster) : Cluster × List Cluster :=
  match cls.getLast? with
  | some cl => ({ cl with mp_used := 0 },
      updateCluster cl.cid (fun c => { c with mp_used := 0 }) cls)
  | none => (⟨0, [], 0⟩, cls)

/-- `mempage_replace` up to the slot grab: keep rotating through the
current cluster, falling back to the LRU-last cluster when it is full.
A missing current cluster cannot occur in the replace path (the C code
would dereference a null `mp_cluster`). -/
def mempage_replace_choose {β : Type} (cfg : Config β) (s : PState β) :
    Cluster × List Cluster :=
  match Option.bind s.cur (fun cid => findCluster cid s.clusters) with
  | some c => if c.mp_used = cfg.clusterN then resetLastCluster s.clusters else (c, s.clusters)
  | none => resetLastCluster s.clusters

/-- A freshly initialized record for `addr`: zeroed slot (`mmap` zero-fill
resp. the explicit resets in `mempage_replace`) plus `bucket_init`. -/
def freshMempage {β : Type} (cfg : Config β) (addr : Nat) : Mempage β :=
  { offlined := PAGE_ONLINE, triggered := false, addr := addr, count := 0,
    bucket := cfg.bucket_init }

/-- The miss-with-capacity branch of `account_page_error`: `mempage_alloc`,
`bucket_init`, `mempage_insert`, LRU insert, `corr_err_counters++`. -/
def account_insert {β : Type} (cfg : Config β) (s : PState β) (addr : Nat) : PState β :=
  let ccn := mempage_alloc_choose cfg s
  let cls2 := updateCluster ccn.1.cid
    (fun c0 => { c0 with slots := c0.slots ++ [addr], mp_used := c0.mp_used + 1 }) ccn.2.1
  { s with table := tblInsert (freshMempage cfg addr) s.table,
           clusters := lruPromote ccn.1.cid cls2,
           cur := some ccn.1.cid,
           next_cid := ccn.2.2,
           corr_err_counters := s.corr_err_counters + 1 }

/-- The miss-at-capacity branch of `account_page_error`: `mempage_replace`
reinitializes the record in the rotated slot of the chosen cluster,
`mempage_rb_tree_update` reindexes it from the evicted address to `addr`,
the cluster is promoted in the LRU list, `mp_repalcement.count` is
incremented, 1 is fed to the replacement bucket at the event time, and on
a crossing `counter_trigger` dispatches the replacement-threshold trigger
asynchronously (C identifier `"page-error-counter"`, sync flag false).
When the rotated slot holds no record (impossible while all clusters are
full, which the startup rounding of `max_corr_err_counters` guarantees)
the C code would corrupt the tree; the model inserts without evicting. -/
def account_replace {β : Type} (cfg : Config β) (s : PState β) (addr t : Nat) :
    PState β × List Ev :=
  let ccl := mempage_replace_choose cfg s
  let c := ccl.1
  let tc : List (Mempage β) × List Cluster :=
    match c.slots.get? c.mp_used with
    | some victim =>
      (tblInsert (freshMempage cfg addr) (tblErase victim s.table),
       updateCluster c.cid
         (fun c0 => { c0 with slots := c0.slots.set c.mp_used addr, mp_used := c.mp_used + 1 })
         ccl.2)
    | none =>
      (tblInsert (freshMempage cfg addr) s.table,
       updateCluster c.cid
         (fun c0 => { c0 with slots := c0.slots ++ [addr], mp_used := c.mp_used + 1 })
         ccl.2)
  let rb := cfg.bucket_account_repl s.mp_repalcement.bucket 1 t
  ({ s with table := tc.1,
            clusters := lruPromote c.cid tc.2,
            cur := some c.cid,
            mp_repalcement := { bucket := rb.1, count := s.mp_repalcement.count + 1 } },
   if rb.2 then [Ev.trigger "page-error-counter" false] else [])

/-- Lines 404-460 of `account_page_error`, operating on the looked-up or
newly placed record: `++mp->ce.count`, feed 1 to the page bucket at the
event time, and on a crossing: skip everything if the page is not online;
otherwise dispatch the page-threshold trigger (`memdb_trigger`, async, C
identifier `"page"`), set `triggered`, and run the offline action —
bracketed by the synchronous pre/post soft triggers when the policy is
`OFFLINE_SOFT` or `OFFLINE_SOFT_THEN_HARD`. -/
def page_threshold_update {β : Type} (cfg : Config β) (mp : Mempage β) (addr t : Nat) :
    Mempage β × List Ev :=
  let mp1 : Mempage β := { mp with count := mp.count + 1 }
  let bc := cfg.bucket_account_page mp1.bucket 1 t
  let mp2 : Mempage β := { mp1 with bucket := bc.1 }
  if bc.2 then
    if mp2.offlined ≠ PAGE_ONLINE then (mp2, [])
    else
      let mp3 : Mempage β := { mp2 with triggered := true }
      if cfg.offline = otype.OFFLINE_SOFT ∨ cfg.offline = otype.OFFLINE_SOFT_THEN_HARD then
        let mw := offline_action cfg mp3 addr
        (mw.1, [Ev.trigger "page" false, Ev.trigger "page_pre_soft" true] ++ mw.2 ++
          [Ev.trigger "page_post_soft" true])
      else
        let mw := offline_action cfg mp3 addr
        (mw.1, [Ev.trigger "page" false] ++ mw.2)
  else (mp2, [])

/-- Apply `page_threshold_update` to the record keyed `addr` and store it
back.  The record is always present at this point. -/
def account_page_error_tail {β : Type} (cfg : Config β) (s : PState β) (addr t : Nat) :
    PState β × List Ev :=
  match tblLookup addr s.table with
  | none => (s, [])
  | some mp =>
    let me := page_threshold_update cfg mp addr t
    ({ s with table := setRecord addr me.1 s.table }, me.2)

/-- The main path of `account_page_error` after the early-return filters:
page-align the address, look it up, branch into hit / insert / replace,
then run the common threshold-accounting tail. -/
def account_page_error_main {β : Type} (cfg : Config β) (s : PState β) (m : Mce) :
    PState β × List Ev :=
  let t := m.time
  let addr := pageAlign m.addr
  match tblLookup addr s.table with
  | some _ =>
    account_page_error_tail cfg { s with clusters := lru_touch addr s.clusters } addr t
  | none =>
    if s.corr_err_counters < cfg.max_corr_err_counters then
      account_page_error_tail cfg (account_insert cfg s addr) addr t
    else
      let se := account_replace cfg s addr t
      let se2 := account_page_error_tail cfg se.1 addr t
      (se2.1, se.2 ++ se2.2)

/-- `account_page_error`: the early-return filters, then the main path.
(The `channel`/`dimm` arguments of the C function feed only the DIMM
lookup used for trigger environment metadata, which is external.) -/
def account_page_error {β : Type} (cfg : Config β) (s : PState β) (m : Mce) :
    PState β × List Ev :=
  if cfg.offline = otype.OFFLINE_OFF then (s, [])
  else if !m.status_addrv || m.status_uc then (s, [])
  else if cfg.cputype = cputype_t.CPU_SANDY_BRIDGE_EP ∧ m.bank = 1 ∧ effcpu m = 0 then (s, [])
  else account_page_error_main cfg s m

/-- Whether an event is rejected by one of the early-return filters of
`account_page_error` (policy off, invalid address, uncorrected error, or
the duplicate-APEI quirk). -/
def event_filtered {β : Type} (cfg : Config β) (m : Mce) : Bool :=
  decide (cfg.offline = otype.OFFLINE_OFF) || !m.status_addrv || m.status_uc ||
    (decide (cfg.cputype = cputype_t.CPU_SANDY_BRIDGE_EP) && decide (m.bank = 1) &&
      decide (effcpu m = 0))

/-- Whether processing `m` in state `s` takes the replace branch (a forced
eviction): not filtered, lookup miss, and the counter cap reached. -/
def forced_eviction {β : Type} (cfg : Config β) (s : PState β) (m : Mce) : Bool :=
  !event_filtered cfg m && (tblLookup (pageAlign m.addr) s.table).isNone &&
    decide (cfg.max_corr_err_counters ≤ s.corr_err_counters)

/-- Process a list of events in order, concatenating the traces. -/
def processEvents {β : Type} (cfg : Config β) (s : PState β) :
    List Mce → PState β × List Ev
  | [] => (s, [])
  | m :: ms =>
    let se := account_page_error cfg s m
    let se2 := processEvents cfg se.1 ms
    (se2.1, se.2 ++ se2.2)

/-- The number of forced evictions while processing a list of events. -/
def countEvictions {β : Type} (cfg : Config β) (s : PState β) : List Mce → Nat
  | [] => 0
  | m :: ms =>
    (if forced_eviction cfg s m then 1 else 0) +
      countEvictions cfg (account_page_error cfg s m).1 ms

/-- The process state at startup: empty table, no clusters, zeroed
counters, and `bucket_init(&mp_repalcement.bucket)` from `page_setup`. -/
def initState {β : Type} (cfg : Config β) : PState β :=
  { table := [], clusters := [], cur := none, next_cid := 0, corr_err_counters := 0,
    mp_repalcement := { bucket := cfg.bucket_init, count := 0 } }

/-- The `roundup(x, y)` macro: `(((x) + (y) - 1) / (y)) * (y)`. -/
def roundup (x y : Nat) : Nat := (x + y - 1) / y * y

/-- `%llx` rendering of an address (lowercase hex, no prefix). -/
def hexStr (n : Nat) : String := String.mk (Nat.toDigits 16 n)

/-- The header line of `dump_page_errors`. -/
def dump_header : String := "Per page corrected memory statistics:"

/-- The record line of `dump_page_errors`:
`fprintf(f, "%llx: total %u seen \"%s\" %s%s\n", ...)`.  The bucket
summary comes from the external `bucket_output`, injected as `bOut`. -/
def dump_line {β : Type} (bOut : β → String) (p : Mempage β) : String :=
  hexStr p.addr ++ ": total " ++ toString p.count ++ " seen \"" ++ bOut p.bucket ++
    "\" " ++ page_state p.offlined ++ (if p.triggered then " triggered" else "")

/-- The loop of `dump_page_errors` with its `k` first-iteration counter:
the header before the first record, then per record the formatted line
(`fprintf` ends it with a newline) followed by the empty line from
`fputc('\n', f)`. -/
def dump_loop {β : Type} (bOut : β → String) : List (Mempage β) → Nat → List String
  | [], _ => []
  | p :: ps, k =>
    (if k = 0 then [dump_header] else []) ++ [dump_line bOut p, ""] ++
      dump_loop bOut ps (k + 1)

/-- `dump_page_errors`: iterate the table in address order and render it;
output is the list of emitted lines.  The function reads but never writes
the engine state, so it is a pure function of the table. -/
def dump_page_errors {β : Type} (bOut : β → String) (tbl : List (Mempage β)) : List String :=
  dump_loop bOut tbl 0

/-- A trace event is a sysfs write. -/
def Ev.isWrite : Ev → Bool
  | .sysfsWrite _ _ => true
  | .trigger _ _ => false

/-- The state invariant maintained by `account_page_error`: the table is
sorted by address with `corr_err_counters` records, bounded by the
configured maximum; the cluster slots hold exactly the table's addresses;
cluster identities are unique and `mp_used` never exceeds the capacity.
While the table is below capacity (phase A: only `mempage_alloc` has run)
every cluster except the current allocation cluster is full and slot usage
equals `mp_used`; once the counter cap is reached (phase B) every cluster
is full — this is what the startup rounding of `max_corr_err_counters` to
a multiple of `N` guarantees, and it makes `mempage_replace` always reuse
a slot holding a live record. -/
structure EngineInv {β : Type} (cfg : Config β) (s : PState β) : Prop where
  sorted : (s.table.map Mempage.addr).Pairwise (· < ·)
  corr_eq : s.corr_err_counters = s.table.length
  corr_le : s.corr_err_counters ≤ cfg.max_corr_err_counters
  perm : (allSlots s.clusters).Perm (s.table.map Mempage.addr)
  ids_nodup : (s.clusters.map Cluster.cid).Nodup
  ids_lt : ∀ c ∈ s.clusters, c.cid < s.next_cid
  used_le : ∀ c ∈ s.clusters, c.mp_used ≤ cfg.clusterN
  phaseA : s.corr_err_counters < cfg.max_corr_err_counters →
    (∀ c ∈ s.clusters, c.slots.length = c.mp_used) ∧
    (∀ c ∈ s.clusters, s.cur = some c.cid ∨ c.slots.length = cfg.clusterN) ∧
    (s.cur = none → s.clusters = []) ∧
    (∀ cid0, s.cur = some cid0 → (findCluster cid0 s.clusters).isSome = true) ∧
    (∀ c ∈ s.clusters, s.cur = some c.cid → 1 ≤ c.slots.length)
  phaseB : s.corr_err_counters = cfg.max_corr_err_counters →
    ∀ c ∈ s.clusters, c.slots.length = cfg.clusterN

/-- A simple concrete leaky-bucket instance used to exercise the model:
the state counts accumulated increments and reports a crossing when the
count reaches `thr`. -/
def natBucket (thr : Nat) : Nat → Nat → Nat → Nat × Bool :=
  fun b inc _t => (b + inc, decide (thr ≤ b + inc))

/-- A sysfs environment where every write succeeds. -/
def env_ok : String → Nat → Int := fun _ _ => 0

/-- A sysfs environment where every write fails. -/
def env_fail : String → Nat → Int := fun _ _ => -1

/-- Concrete configuration: soft offlining, generic CPU, one-slot
clusters, capacity 1, page bucket crossing at every event, replacement
bucket crossing at 2, all sysfs writes succeeding. -/
def cfgSoft : Config Nat :=
  { offline := .OFFLINE_SOFT, cputype := .CPU_GENERIC 0, clusterN := 1,
    max_corr_err_counters := 1, bucket_init := 0,
    bucket_account_page := natBucket 1, bucket_account_repl := natBucket 2,
    sysfs_write := env_ok }

/-- Concrete configuration: accounting only (no offlining). -/
def cfgAccount : Config Nat :=
  { cfgSoft with offline := .OFFLINE_ACCOUNT }

/-- Concrete configuration: soft offlining on the duplicate-APEI quirk
family. -/
def cfgSnb : Config Nat :=
  { cfgSoft with cputype := .CPU_SANDY_BRIDGE_EP }

/-- Concrete configuration for the capacity witness: page bucket that
never crosses, so the table evolution is isolated. -/
def cfgQuiet : Config Nat :=
  { cfgSoft with bucket_account_page := natBucket 1000 }

/-- A well-formed corrected-error event at page 0x5000. -/
def mEv : Mce :=
  { addr := 0x5123, time := 100, cpu := 0, extcpu := 1, bank := 0,
    status_addrv := true, status_uc := false, socketid := 0 }

/-- A well-formed corrected-error event at page 0x7000. -/
def mEv2 : Mce :=
  { addr := 0x7000, time := 101, cpu := 0, extcpu := 1, bank := 0,
    status_addrv := true, status_uc := false, socketid := 0 }

/-- An uncorrected-error event (must be filtered). -/
def mUc : Mce :=
  { mEv with status_uc := true }

/-- An event carrying the duplicate-APEI quirk signature `bank=1, cpu=0`. -/
def mQuirk : Mce :=
  { addr := 0x5123, time := 100, cpu := 0, extcpu := 0, bank := 1,
    status_addrv := true, status_uc := false, socketid := 0 }

/-- A concrete state holding one already-offlined, already-triggered
record at page 0x1000 for the post-offline accounting witness. -/
def sOfflined : PState Nat :=
  { table := [{ offlined := PAGE_OFFLINE, triggered := true, addr := 0x1000,
                count := 5, bucket := 0 }],
    clusters := [⟨0, [0x1000], 1⟩], cur := some 0, next_cid := 1,
    corr_err_counters := 1, mp_repalcement := { bucket := 0, count := 0 } }

/-- An event at the already-offlined page 0x1000. -/
def mHit : Mce :=
  { addr := 0x1000, time := 200, cpu := 0, extcpu := 1, bank := 0,
    status_addrv := true, status_uc := false, socketid := 0 }


/-! ### Basic facts about the table operations -/

theorem tblLookup_eq_none_iff {β : Type} (a : Nat) (tbl : List (Mempage β)) :
    tblLookup a tbl = none ↔ a ∉ tbl.map Mempage.addr := by
  induction tbl with
  | nil => simp [tblLookup]
  | cons q qs ih =>
    by_cases h : a = q.addr
    · simp [tblLookup, h]
    · simp [tblLookup, h, ih, Ne.symm h]

theorem tblLookup_eq_some {β : Type} {a : Nat} {tbl : List (Mempage β)} {mp : Mempage β}
    (h : tblLookup a tbl = some mp) : mp ∈ tbl ∧ mp.addr = a := by
  induction tbl with
  | nil => simp [tblLookup] at h
  | cons q qs ih =>
    by_cases h1 : a = q.addr
    · simp [tblLookup, h1] at h
      subst h
      exact ⟨List.mem_cons_self _ _, h1.symm⟩
    · simp [tblLookup, h1] at h
      rcases ih h with ⟨h2, h3⟩
      exact ⟨List.mem_cons_of_mem _ h2, h3⟩

theorem keys_tblInsert {β : Type} {p : Mempage β} {tbl : List (Mempage β)}
    (h : p.addr ∉ tbl.map Mempage.addr) :
    ((tblInsert p tbl).map Mempage.addr).Perm (p.addr :: tbl.map Mempage.addr) := by
  induction tbl with
  | nil => simp [tblInsert]
  | cons q qs ih =>
    simp only [List.map_cons, List.mem_cons] at h
    push_neg at h
    by_cases h1 : p.addr < q.addr
    · simp [tblInsert, h1]
    · simp only [tblInsert, h1, if_false, h.1, if_false, List.map_cons]
      exact (List.Perm.cons q.addr (ih h.2)).trans (List.Perm.swap p.addr q.addr _)

theorem length_tblInsert {β : Type} {p : Mempage β} {tbl : List (Mempage β)}
    (h : p.addr ∉ tbl.map Mempage.addr) :
    (tblInsert p tbl).length = tbl.length + 1 := by
  have h2 := (keys_tblInsert h).length_eq
  simpa using h2

theorem sorted_tblInsert {β : Type} {p : Mempage β} {tbl : List (Mempage β)}
    (h0 : p.addr ∉ tbl.map Mempage.addr)
    (h : (tbl.map Mempage.addr).Pairwise (· < ·)) :
    ((tblInsert p tbl).map Mempage.addr).Pairwise (· < ·) := by
  induction tbl with
  | nil => simp [tblInsert]
  | cons q qs ih =>
    simp only [List.map_cons, List.mem_cons] at h0
    push_neg at h0
    simp only [List.map_cons, List.pairwise_cons] at h
    by_cases h1 : p.addr < q.addr
    · simp only [tblInsert, h1, if_true, List.map_cons, List.pairwise_cons]
      refine ⟨?_, h.1, h.2⟩
      intro x hx
      rcases List.mem_cons.mp hx with h2 | h2
      · exact h2 ▸ h1
      · exact h1.trans (h.1 x h2)
    · simp only [tblInsert, h1, if_false, h0.1, if_false, List.map_cons, List.pairwise_cons]
      refine ⟨?_, ih h0.2 h.2⟩
      intro x hx
      rcases List.mem_cons.mp ((keys_tblInsert h0.2).mem_iff.mp hx) with h2 | h2
      · subst h2
        omega
      · exact h.1 x h2

theorem tblErase_sublist {β : Type} (a : Nat) (tbl : List (Mempage β)) :
    (tblErase a tbl).Sublist tbl := by
  induction tbl with
  | nil => simp [tblErase]
  | cons q qs ih =>
    by_cases h : q.addr = a
    · simp only [tblErase, h, if_true]
      exact List.sublist_cons_self q qs
    · simpa [tblErase, h] using ih.cons₂ q

theorem keys_tblErase {β : Type} {a : Nat} {tbl : List (Mempage β)}
    (h : a ∈ tbl.map Mempage.addr) :
    (tbl.map Mempage.addr).Perm (a :: (tblErase a tbl).map Mempage.addr) := by
  induction tbl with
  | nil => simp at h
  | cons q qs ih =>
    by_cases h1 : q.addr = a
    · simp [tblErase, h1]
    · simp only [List.map_cons, List.mem_cons] at h
      rcases h with h2 | h2
      · exact absurd h2.symm h1
      · simp only [tblErase, h1, if_false, List.map_cons]
        exact (List.Perm.cons q.addr (ih h2)).trans (List.Perm.swap a q.addr _)

theorem length_tblErase {β : Type} {a : Nat} {tbl : List (Mempage β)}
    (h : a ∈ tbl.map Mempage.addr) :
    (tblErase a tbl).length + 1 = tbl.length := by
  have h2 := (keys_tblErase h).length_eq
  simpa using h2.symm

theorem keys_setRecord {β : Type} {a : Nat} {v : Mempage β} (tbl : List (Mempage β))
    (h : v.addr = a) :
    (setRecord a v tbl).map Mempage.addr = tbl.map Mempage.addr := by
  induction tbl with
  | nil => rfl
  | cons q qs ih =>
    by_cases h1 : q.addr = a
    · simp [setRecord, h1, h] at ih ⊢
      exact ih
    · simp [setRecord, h1] at ih ⊢
      exact ih

theorem length_setRecord {β : Type} (a : Nat) (v : Mempage β) (tbl : List (Mempage β)) :
    (setRecord a v tbl).length = tbl.length := by
  simp [setRecord]

theorem tblLookup_setRecord {β : Type} {a : Nat} {tbl : List (Mempage β)} {mp : Mempage β}
    {v : Mempage β} (hv : v.addr = a) (h : tblLookup a tbl = some mp) :
    tblLookup a (setRecord a v tbl) = some v := by
  induction tbl with
  | nil => simp [tblLookup] at h
  | cons q qs ih =>
    by_cases h1 : a = q.addr
    · simp [setRecord, tblLookup, h1, hv]
    · have h2 : ¬ q.addr = a := fun hc => h1 hc.symm
      simp only [tblLookup, h1, if_false] at h
      simp only [setRecord, List.map_cons, h2, if_false, tblLookup, h1, if_false]
      exact ih h

/-! ### Basic facts about the cluster operations -/

theorem findCluster_spec {cid : Nat} {cls : List Cluster} {c : Cluster}
    (h : findCluster cid cls = some c) : c ∈ cls ∧ c.cid = cid := by
  induction cls with
  | nil => simp [findCluster] at h
  | cons c0 cs ih =>
    by_cases h1 : c0.cid = cid
    · simp [findCluster, h1] at h
      subst h
      exact ⟨List.mem_cons_self _ _, h1⟩
    · simp only [findCluster, h1, if_false] at h
      rcases ih h with ⟨h2, h3⟩
      exact ⟨List.mem_cons_of_mem _ h2, h3⟩

theorem findCluster_isSome_iff (cid : Nat) (cls : List Cluster) :
    (findCluster cid cls).isSome = true ↔ ∃ c ∈ cls, c.cid = cid := by
  induction cls with
  | nil => simp [findCluster]
  | cons c0 cs ih =>
    by_cases h1 : c0.cid = cid
    · simp [findCluster, h1]
    · simp only [findCluster, h1, if_false, ih]
      constructor
      · rintro ⟨c, hc, hcid⟩
        exact ⟨c, List.mem_cons_of_mem _ hc, hcid⟩
      · rintro ⟨c, hc, hcid⟩
        rcases List.mem_cons.mp hc with h2 | h2
        · exact absurd (h2 ▸ hcid) h1
        · exact ⟨c, h2, hcid⟩

theorem removeCluster_perm {cid : Nat} {cls : List Cluster} {c : Cluster}
    (h : findCluster cid cls = some c) : (c :: removeCluster cid cls).Perm cls := by
  induction cls with
  | nil => simp [findCluster] at h
  | cons c0 cs ih =>
    by_cases h1 : c0.cid = cid
    · simp [findCluster, h1] at h
      subst h
      simp [removeCluster, h1]
    · simp only [findCluster, h1, if_false] at h
      simp only [removeCluster, h1, if_false]
      exact (List.Perm.swap c0 c _).trans (List.Perm.cons c0 (ih h))

theorem lruPromote_perm (cid : Nat) (cls : List Cluster) :
    (lruPromote cid cls).Perm cls := by
  unfold lruPromote
  cases h : findCluster cid cls with
  | none => exact List.Perm.refl _
  | some c => exact removeCluster_perm h

theorem lru_touch_perm (a : Nat) (cls : List Cluster) :
    (lru_touch a cls).Perm cls := by
  unfold lru_touch
  cases h : cls.find? (fun c => c.slots.contains a) with
  | none => exact List.Perm.refl _
  | some c => exact lruPromote_perm c.cid cls

theorem allSlots_perm {cls cls' : List Cluster} (h : cls.Perm cls') :
    (allSlots cls).Perm (allSlots cls') := by
  induction h with
  | nil => exact List.Perm.refl _
  | cons c _ ih => exact (List.Perm.append_left c.slots ih)
  | swap c d l =>
    show (d.slots ++ (c.slots ++ allSlots l)).Perm (c.slots ++ (d.slots ++ allSlots l))
    rw [← List.append_assoc, ← List.append_assoc]
    exact List.Perm.append_right _ (List.perm_append_comm)
  | trans _ _ ih1 ih2 => exact ih1.trans ih2

theorem mem_allSlots_of_mem {cls : List Cluster} {c : Cluster} {a : Nat}
    (hc : c ∈ cls) (ha : a ∈ c.slots) : a ∈ allSlots cls := by
  induction cls with
  | nil => simp at hc
  | cons c0 cs ih =>
    rcases List.mem_cons.mp hc with h | h
    · subst h
      exact List.mem_append_left _ ha
    · exact List.mem_append_right _ (ih h)

theorem mem_updateCluster {cid : Nat} {f : Cluster → Cluster} {cls : List Cluster}
    {c' : Cluster} (h : c' ∈ updateCluster cid f cls) :
    c' ∈ cls ∨ ∃ c ∈ cls, c.cid = cid ∧ c' = f c := by
  induction cls with
  | nil => simp [updateCluster] at h
  | cons c0 cs ih =>
    by_cases h1 : c0.cid = cid
    · simp only [updateCluster, h1, if_true] at h
      rcases List.mem_cons.mp h with h2 | h2
      · exact Or.inr ⟨c0, List.mem_cons_self _ _, h1, h2⟩
      · exact Or.inl (List.mem_cons_of_mem _ h2)
    · simp only [updateCluster, h1, if_false] at h
      rcases List.mem_cons.mp h with h2 | h2
      · exact Or.inl (h2 ▸ List.mem_cons_self _ _)
      · rcases ih h2 with h3 | ⟨c, hc, hcid, hfc⟩
        · exact Or.inl (List.mem_cons_of_mem _ h3)
        · exact Or.inr ⟨c, List.mem_cons_of_mem _ hc, hcid, hfc⟩

theorem map_cid_updateCluster {cid : Nat} {f : Cluster → Cluster}
    (hf : ∀ c, (f c).cid = c.cid) (cls : List Cluster) :
    (updateCluster cid f cls).map Cluster.cid = cls.map Cluster.cid := by
  induction cls with
  | nil => rfl
  | cons c0 cs ih =>
    by_cases h1 : c0.cid = cid
    · simp [updateCluster, h1, hf]
    · simp [updateCluster, h1, ih]

theorem updateCluster_of_not_mem {cid : Nat} {f : Cluster → Cluster} {cls : List Cluster}
    (h : ∀ c ∈ cls, c.cid ≠ cid) : updateCluster cid f cls = cls := by
  induction cls with
  | nil => rfl
  | cons c0 cs ih =>
    have h1 : c0.cid ≠ cid := h c0 (List.mem_cons_self _ _)
    simp only [updateCluster, h1, if_false]
    rw [ih (fun c hc => h c (List.mem_cons_of_mem _ hc))]

theorem allSlots_updateCluster_slots_eq {cid : Nat} {f : Cluster → Cluster}
    (hf : ∀ c, (f c).slots = c.slots) (cls : List Cluster) :
    allSlots (updateCluster cid f cls) = allSlots cls := by
  induction cls with
  | nil => rfl
  | cons c0 cs ih =>
    by_cases h1 : c0.cid = cid
    · simp [updateCluster, h1, allSlots, hf]
    · simp [updateCluster, h1, allSlots, ih]

theorem allSlots_updateCluster_append {cid : Nat} {f : Cluster → Cluster} {cls : List Cluster}
    {c : Cluster} {a : Nat} (h : findCluster cid cls = some c)
    (hf : (f c).slots = c.slots ++ [a]) :
    (allSlots (updateCluster cid f cls)).Perm (a :: allSlots cls) := by
  induction cls with
  | nil => simp [findCluster] at h
  | cons c0 cs ih =>
    by_cases h1 : c0.cid = cid
    · simp only [findCluster, h1, if_true, Option.some.injEq] at h
      subst h
      simp only [updateCluster, h1, if_true, allSlots, hf, List.append_assoc,
        List.singleton_append]
      exact List.perm_middle
    · simp only [findCluster, h1, if_false] at h
      simp only [updateCluster, h1, if_false, allSlots]
      exact (List.Perm.append_left c0.slots (ih h)).trans List.perm_middle

theorem set_cons_perm {xs : List Nat} {i : Nat} {v a : Nat}
    (h : xs.get? i = some v) : (v :: xs.set i a).Perm (a :: xs) := by
  induction xs generalizing i with
  | nil => simp at h
  | cons x rest ih =>
    cases i with
    | zero =>
      simp only [List.get?, Option.some.injEq] at h
      subst h
      simp only [List.set]
      exact List.Perm.swap _ _ _
    | succ j =>
      simp only [List.get?] at h
      simp only [List.set]
      exact (List.Perm.swap x v _).trans ((List.Perm.cons x (ih h)).trans (List.Perm.swap a x rest))

theorem allSlots_updateCluster_set {cid : Nat} {f : Cluster → Cluster} {cls : List Cluster}
    {c : Cluster} {a v : Nat} (h : findCluster cid cls = some c)
    (hv : c.slots.get? c.mp_used = some v)
    (hf : (f c).slots = c.slots.set c.mp_used a) :
    (v :: allSlots (updateCluster cid f cls)).Perm (a :: allSlots cls) := by
  induction cls with
  | nil => simp [findCluster] at h
  | cons c0 cs ih =>
    by_cases h1 : c0.cid = cid
    · simp only [findCluster, h1, if_true, Option.some.injEq] at h
      subst h
      simp only [updateCluster, h1, if_true, allSlots]
      rw [hf]
      exact List.Perm.append_right (allSlots cs) (set_cons_perm hv)
    · simp only [findCluster, h1, if_false] at h
      simp only [updateCluster, h1, if_false, allSlots]
      exact List.perm_middle.symm.trans
        ((List.Perm.append_left c0.slots (ih h)).trans List.perm_middle)

theorem length_allSlots_full {n : Nat} {cls : List Cluster}
    (h : ∀ c ∈ cls, c.slots.length = n) :
    (allSlots cls).length = n * cls.length := by
  induction cls with
  | nil => simp [allSlots]
  | cons c0 cs ih =>
    simp only [allSlots, List.length_append, List.length_cons]
    rw [h c0 (List.mem_cons_self _ _), ih (fun c hc => h c (List.mem_cons_of_mem _ hc))]
    ring

theorem nodup_cid_inj {cls : List Cluster} (h : (cls.map Cluster.cid).Nodup) :
    ∀ c ∈ cls, ∀ d ∈ cls, c.cid = d.cid → c = d := by
  induction cls with
  | nil => simp
  | cons c0 cs ih =>
    simp only [List.map_cons, List.nodup_cons] at h
    intro c hc d hd hcd
    rcases List.mem_cons.mp hc with h1 | h1 <;> rcases List.mem_cons.mp hd with h2 | h2
    · rw [h1, h2]
    · exfalso
      apply h.1
      rw [h1] at hcd
      rw [hcd]
      exact List.mem_map_of_mem Cluster.cid h2
    · exfalso
      apply h.1
      rw [h2] at hcd
      rw [← hcd]
      exact List.mem_map_of_mem Cluster.cid h1
    · exact ih h.2 c h1 d h2 hcd

theorem all_full_of_dvd {n u : Nat} {cls : List Cluster}
    (h1 : ∀ c ∈ cls, c.slots.length = n ∨ c.cid = u)
    (h2 : (cls.map Cluster.cid).Nodup)
    (h3 : ∀ c ∈ cls, c.slots.length ≤ n)
    (h4 : ∀ c ∈ cls, c.cid = u → 1 ≤ c.slots.length)
    (h5 : n ∣ (allSlots cls).length) :
    ∀ c ∈ cls, c.slots.length = n := by
  induction cls with
  | nil => simp
  | cons c0 cs ih =>
    simp only [List.map_cons, List.nodup_cons] at h2
    have htail1 : ∀ c ∈ cs, c.slots.length = n ∨ c.cid = u :=
      fun c hc => h1 c (List.mem_cons_of_mem _ hc)
    have htail3 : ∀ c ∈ cs, c.slots.length ≤ n :=
      fun c hc => h3 c (List.mem_cons_of_mem _ hc)
    have htail4 : ∀ c ∈ cs, c.cid = u → 1 ≤ c.slots.length :=
      fun c hc => h4 c (List.mem_cons_of_mem _ hc)
    have hlen : (allSlots (c0 :: cs)).length = c0.slots.length + (allSlots cs).length := by
      simp [allSlots]
    rcases h1 c0 (List.mem_cons_self _ _) with hfull | hcur
    · have h5' : n ∣ (allSlots cs).length := by
        have he : (allSlots cs).length = (allSlots (c0 :: cs)).length - c0.slots.length := by
          omega
        rw [he, hfull]
        exact Nat.dvd_sub' h5 dvd_rfl
      have htl := ih htail1 h2.2 htail3 htail4 h5'
      intro c hc
      rcases List.mem_cons.mp hc with h6 | h6
      · rw [h6]; exact hfull
      · exact htl c h6
    · have hrest : ∀ c ∈ cs, c.slots.length = n := by
        intro c hc
        rcases htail1 c hc with h6 | h6
        · exact h6
        · exfalso
          apply h2.1
          rw [hcur, ← h6]
          exact List.mem_map_of_mem Cluster.cid hc
      have hsum : (allSlots cs).length = n * cs.length := length_allSlots_full hrest
      have hc0 : c0.slots.length = n := by
        have hb1 : 1 ≤ c0.slots.length := h4 c0 (List.mem_cons_self _ _) hcur
        have hb2 : c0.slots.length ≤ n := h3 c0 (List.mem_cons_self _ _)
        have hd : n ∣ c0.slots.length := by
          have he : c0.slots.length = (allSlots (c0 :: cs)).length - n * cs.length := by
            omega
          rw [he]
          exact Nat.dvd_sub' h5 (dvd_mul_right n cs.length)
        rcases hd with ⟨j, hj⟩
        rcases Nat.eq_zero_or_pos j with hj0 | hj0
        · rw [hj0, Nat.mul_zero] at hj
          omega
        · have hnj : n ≤ n * j := by
            calc n = n * 1 := (Nat.mul_one n).symm
            _ ≤ n * j := Nat.mul_le_mul_left n hj0
          exact le_antisymm hb2 (hj ▸ hnj)
      intro c hc
      rcases List.mem_cons.mp hc with h6 | h6
      · rw [h6]; exact hc0
      · exact hrest c h6

/-! ### Shape facts about the engine step -/

theorem offline_action_addr {β : Type} (cfg : Config β) (mp : Mempage β) (a : Nat) :
    (offline_action cfg mp a).1.addr = mp.addr := by
  unfold offline_action
  dsimp only
  split
  · rfl
  · split <;> rfl

theorem page_threshold_update_addr {β : Type} (cfg : Config β) (mp : Mempage β) (a t : Nat) :
    (page_threshold_update cfg mp a t).1.addr = mp.addr := by
  unfold page_threshold_update
  dsimp only
  split
  · split
    · rfl
    · split
      · simp only
        rw [offline_action_addr]
      · simp only
        rw [offline_action_addr]
  · rfl

theorem tail_fields {β : Type} (cfg : Config β) (s : PState β) (a t : Nat) :
    (account_page_error_tail cfg s a t).1.clusters = s.clusters ∧
    (account_page_error_tail cfg s a t).1.cur = s.cur ∧
    (account_page_error_tail cfg s a t).1.next_cid = s.next_cid ∧
    (account_page_error_tail cfg s a t).1.corr_err_counters = s.corr_err_counters ∧
    (account_page_error_tail cfg s a t).1.mp_repalcement = s.mp_repalcement := by
  unfold account_page_error_tail
  split <;> simp

theorem tail_keys {β : Type} (cfg : Config β) (s : PState β) (a t : Nat) :
    (account_page_error_tail cfg s a t).1.table.map Mempage.addr =
      s.table.map Mempage.addr := by
  unfold account_page_error_tail
  split
  · rfl
  · rename_i mp hmp
    simp only
    apply keys_setRecord
    rw [page_threshold_update_addr]
    exact (tblLookup_eq_some hmp).2

theorem tail_length {β : Type} (cfg : Config β) (s : PState β) (a t : Nat) :
    (account_page_error_tail cfg s a t).1.table.length = s.table.length := by
  have h := congrArg List.length (tail_keys cfg s a t)
  simpa using h

theorem account_page_error_of_filtered {β : Type} (cfg : Config β) (s : PState β) (m : Mce)
    (h : event_filtered cfg m = true) : account_page_error cfg s m = (s, []) := by
  by_cases h1 : cfg.offline = otype.OFFLINE_OFF
  · simp [account_page_error, h1]
  · by_cases h2 : (!m.status_addrv || m.status_uc) = true
    · simp only [account_page_error, h1, if_false]
      rw [if_pos h2]
    · by_cases h3 : cfg.cputype = cputype_t.CPU_SANDY_BRIDGE_EP ∧ m.bank = 1 ∧ effcpu m = 0
      · simp only [account_page_error, h1, if_false]
        rw [if_neg (by simp [h2]), if_pos h3]
      · exfalso
        unfold event_filtered at h
        simp only [Bool.or_eq_true, decide_eq_true_eq, Bool.and_eq_true] at h
        rcases h with ((hh | hh) | hh) | ⟨⟨hh4, hh5⟩, hh6⟩
        · exact h1 hh
        · exact h2 (by simp [hh])
        · exact h2 (by simp [hh])
        · exact h3 ⟨hh4, hh5, hh6⟩

theorem account_page_error_of_not_filtered {β : Type} (cfg : Config β) (s : PState β)
    (m : Mce) (h : event_filtered cfg m = false) :
    account_page_error cfg s m = account_page_error_main cfg s m := by
  unfold event_filtered at h
  rw [Bool.or_eq_false_iff, Bool.or_eq_false_iff, Bool.or_eq_false_iff] at h
  obtain ⟨⟨⟨h1, h2⟩, h3⟩, h4⟩ := h
  unfold account_page_error
  rw [if_neg (of_decide_eq_false h1), if_neg (by simp [h2, h3]), if_neg ?_]
  intro hq
  simp [hq.1, hq.2.1, hq.2.2] at h4

theorem main_hit {β : Type} (cfg : Config β) (s : PState β) (m : Mce) {mp : Mempage β}
    (h : tblLookup (pageAlign m.addr) s.table = some mp) :
    account_page_error_main cfg s m =
      account_page_error_tail cfg
        { s with clusters := lru_touch (pageAlign m.addr) s.clusters }
        (pageAlign m.addr) m.time := by
  unfold account_page_error_main
  dsimp only
  rw [h]

theorem main_insert {β : Type} (cfg : Config β) (s : PState β) (m : Mce)
    (h : tblLookup (pageAlign m.addr) s.table = none)
    (hlt : s.corr_err_counters < cfg.max_corr_err_counters) :
    account_page_error_main cfg s m =
      account_page_error_tail cfg (account_insert cfg s (pageAlign m.addr))
        (pageAlign m.addr) m.time := by
  unfold account_page_error_main
  dsimp only
  rw [h]
  dsimp only
  rw [if_pos hlt]

theorem main_replace {β : Type} (cfg : Config β) (s : PState β) (m : Mce)
    (h : tblLookup (pageAlign m.addr) s.table = none)
    (hge : ¬ s.corr_err_counters < cfg.max_corr_err_counters) :
    account_page_error_main cfg s m =
      ((account_page_error_tail cfg (account_replace cfg s (pageAlign m.addr) m.time).1
          (pageAlign m.addr) m.time).1,
        (account_replace cfg s (pageAlign m.addr) m.time).2 ++
          (account_page_error_tail cfg (account_replace cfg s (pageAlign m.addr) m.time).1
            (pageAlign m.addr) m.time).2) := by
  unfold account_page_error_main
  dsimp only
  rw [h]
  dsimp only
  rw [if_neg hge]

/-! ### Preservation of the engine invariant -/

theorem engineInv_congr {β : Type} {cfg : Config β} {s s' : PState β}
    (hI : EngineInv cfg s)
    (hkeys : s'.table.map Mempage.addr = s.table.map Mempage.addr)
    (hlen : s'.table.length = s.table.length)
    (hcls : s'.clusters = s.clusters)
    (hcur : s'.cur = s.cur)
    (hnc : s'.next_cid = s.next_cid)
    (hcorr : s'.corr_err_counters = s.corr_err_counters) :
    EngineInv cfg s' := by
  refine ⟨?_, ?_, ?_, ?_, ?_, ?_, ?_, ?_, ?_⟩
  · rw [hkeys]; exact hI.sorted
  · rw [hcorr, hlen]; exact hI.corr_eq
  · rw [hcorr]; exact hI.corr_le
  · rw [hcls, hkeys]; exact hI.perm
  · rw [hcls]; exact hI.ids_nodup
  · rw [hcls, hnc]; exact hI.ids_lt
  · rw [hcls]; exact hI.used_le
  · rw [hcorr, hcls, hcur]; exact hI.phaseA
  · rw [hcorr, hcls]; exact hI.phaseB

theorem engineInv_clusters_perm {β : Type} {cfg : Config β} {s : PState β}
    {cls' : List Cluster} (hI : EngineInv cfg s) (hp : cls'.Perm s.clusters) :
    EngineInv cfg { s with clusters := cls' } := by
  have hmem : ∀ c, c ∈ cls' ↔ c ∈ s.clusters := fun c => hp.mem_iff
  refine ⟨hI.sorted, hI.corr_eq, hI.corr_le, ?_, ?_, ?_, ?_, ?_, ?_⟩
  · exact (allSlots_perm hp).trans hI.perm
  · exact (hp.map Cluster.cid).nodup_iff.mpr hI.ids_nodup
  · intro c hc
    exact hI.ids_lt c ((hmem c).mp hc)
  · intro c hc
    exact hI.used_le c ((hmem c).mp hc)
  · intro hlt
    obtain ⟨p1, p2, p3, p4, p5⟩ := hI.phaseA hlt
    refine ⟨?_, ?_, ?_, ?_, ?_⟩
    · intro c hc
      exact p1 c ((hmem c).mp hc)
    · intro c hc
      exact p2 c ((hmem c).mp hc)
    · intro hnone
      have h0 := p3 hnone
      have := hp.length_eq
      rw [h0] at this
      exact List.eq_nil_of_length_eq_zero (by simpa using this)
    · intro cid0 hcid0
      rw [findCluster_isSome_iff]
      have h4 := p4 cid0 hcid0
      rw [findCluster_isSome_iff] at h4
      obtain ⟨c, hc, hcc⟩ := h4
      exact ⟨c, (hmem c).mpr hc, hcc⟩
    · intro c hc
      exact p5 c ((hmem c).mp hc)
  · intro heq c hc
    exact hI.phaseB heq c ((hmem c).mp hc)

theorem engineInv_init {β : Type} (cfg : Config β)
    (hpos : 0 < cfg.max_corr_err_counters) :
    EngineInv cfg (initState cfg) := by
  refine ⟨?_, ?_, ?_, ?_, ?_, ?_, ?_, ?_, ?_⟩
  · simp [initState]
  · simp [initState]
  · simp [initState]
  · simp [initState, allSlots]
  · simp [initState]
  · simp [initState]
  · simp [initState]
  · intro _
    refine ⟨?_, ?_, ?_, ?_, ?_⟩ <;> simp [initState]
  · intro heq
    rw [initState] at heq
    simp at heq
    omega

theorem findCluster_updateCluster {cid : Nat} {f : Cluster → Cluster}
    (hf : ∀ c, (f c).cid = c.cid) (cls : List Cluster) :
    findCluster cid (updateCluster cid f cls) = Option.map f (findCluster cid cls) := by
  induction cls with
  | nil => rfl
  | cons c0 cs ih =>
    by_cases h1 : c0.cid = cid
    · simp [updateCluster, findCluster, h1, hf]
    · simp [updateCluster, findCluster, h1, ih]

theorem mem_updateCluster_nodup {cid : Nat} {f : Cluster → Cluster} {cls : List Cluster}
    {c : Cluster} (hnd : (cls.map Cluster.cid).Nodup)
    (hfind : findCluster cid cls = some c) {d : Cluster}
    (hd : d ∈ updateCluster cid f cls) : d = f c ∨ (d ∈ cls ∧ d.cid ≠ cid) := by
  induction cls with
  | nil => simp [updateCluster] at hd
  | cons c0 cs ih =>
    simp only [List.map_cons, List.nodup_cons] at hnd
    by_cases h1 : c0.cid = cid
    · simp only [findCluster, h1, if_true, Option.some.injEq] at hfind
      subst hfind
      simp only [updateCluster, h1, if_true] at hd
      rcases List.mem_cons.mp hd with h2 | h2
      · exact Or.inl h2
      · refine Or.inr ⟨List.mem_cons_of_mem _ h2, ?_⟩
        intro hc
        apply hnd.1
        rw [h1, ← hc]
        exact List.mem_map_of_mem Cluster.cid h2
    · simp only [findCluster, h1, if_false] at hfind
      simp only [updateCluster, h1, if_false] at hd
      rcases List.mem_cons.mp hd with h2 | h2
      · exact Or.inr ⟨h2 ▸ List.mem_cons_self _ _, h2 ▸ h1⟩
      · rcases ih hnd.2 hfind h2 with h3 | ⟨h3, h4⟩
        · exact Or.inl h3
        · exact Or.inr ⟨List.mem_cons_of_mem _ h3, h4⟩

theorem engineInv_insert_aux {β : Type} {cfg : Config β} {s : PState β}
    (hI : EngineInv cfg s) {addr : Nat} {c : Cluster} {cls1 : List Cluster} {ncid : Nat}
    (haddr : tblLookup addr s.table = none)
    (hlt : s.corr_err_counters < cfg.max_corr_err_counters)
    (hdvd : cfg.clusterN ∣ cfg.max_corr_err_counters)
    (hfind : findCluster c.cid cls1 = some c)
    (hslots : allSlots cls1 = allSlots s.clusters)
    (hmem1 : ∀ d ∈ cls1, d = c ∨ d ∈ s.clusters)
    (hnodup : (cls1.map Cluster.cid).Nodup)
    (hcidlt : ∀ d ∈ cls1, d.cid < ncid)
    (hused : c.mp_used < cfg.clusterN)
    (hp1 : ∀ d ∈ cls1, d.slots.length = d.mp_used)
    (hp2 : ∀ d ∈ cls1, d = c ∨ d.slots.length = cfg.clusterN) :
    EngineInv cfg
      { s with
        table := tblInsert (freshMempage cfg addr) s.table,
        clusters := lruPromote c.cid (updateCluster c.cid
          (fun c0 => { c0 with slots := c0.slots ++ [addr], mp_used := c0.mp_used + 1 }) cls1),
        cur := some c.cid,
        next_cid := ncid,
        corr_err_counters := s.corr_err_counters + 1 } := by
  have haddr' : addr ∉ s.table.map Mempage.addr := (tblLookup_eq_none_iff addr s.table).mp haddr
  have hfc : ∀ c0 : Cluster,
      ((fun c0 : Cluster => { c0 with slots := c0.slots ++ [addr], mp_used := c0.mp_used + 1 })
        c0).cid = c0.cid := fun _ => rfl
  generalize hcls2 : updateCluster c.cid
    (fun c0 => { c0 with slots := c0.slots ++ [addr], mp_used := c0.mp_used + 1 }) cls1 = cls2
  have hP1 : (allSlots cls2).Perm (addr :: allSlots cls1) := by
    rw [← hcls2]
    exact allSlots_updateCluster_append hfind rfl
  rw [hslots] at hP1
  have hPkeys : (allSlots cls2).Perm (addr :: s.table.map Mempage.addr) :=
    hP1.trans (List.Perm.cons addr hI.perm)
  have hnodup2 : (cls2.map Cluster.cid).Nodup := by
    rw [← hcls2, map_cid_updateCluster hfc]
    exact hnodup
  have hfind2 : findCluster c.cid cls2 =
      some { c with slots := c.slots ++ [addr], mp_used := c.mp_used + 1 } := by
    rw [← hcls2, findCluster_updateCluster hfc, hfind]
    rfl
  have hmem2 : ∀ d ∈ cls2,
      d = { c with slots := c.slots ++ [addr], mp_used := c.mp_used + 1 } ∨
        (d ∈ cls1 ∧ d.cid ≠ c.cid) := by
    intro d hd
    rw [← hcls2] at hd
    exact mem_updateCluster_nodup hnodup hfind hd
  have hlen2 : (allSlots cls2).length = s.corr_err_counters + 1 := by
    rw [hPkeys.length_eq]
    simp only [List.length_cons, List.length_map]
    rw [hI.corr_eq]
  have hmid : EngineInv cfg
      { s with
        table := tblInsert (freshMempage cfg addr) s.table,
        clusters := cls2,
        cur := some c.cid,
        next_cid := ncid,
        corr_err_counters := s.corr_err_counters + 1 } := by
    refine ⟨?_, ?_, ?_, ?_, ?_, ?_, ?_, ?_, ?_⟩ <;> dsimp only
    · exact sorted_tblInsert haddr' hI.sorted
    · show s.corr_err_counters + 1 = (tblInsert (freshMempage cfg addr) s.table).length
      rw [length_tblInsert haddr', hI.corr_eq]
    · omega
    · have haddr2 : (freshMempage cfg addr).addr ∉ s.table.map Mempage.addr := haddr'
      exact hPkeys.trans (keys_tblInsert haddr2).symm
    · exact hnodup2
    · intro d hd
      rcases hmem2 d hd with rfl | ⟨hd1, _⟩
      · exact hcidlt c (findCluster_spec hfind).1
      · exact hcidlt d hd1
    · intro d hd
      rcases hmem2 d hd with rfl | ⟨hd1, hd2⟩
      · show c.mp_used + 1 ≤ cfg.clusterN
        omega
      · rcases hmem1 d hd1 with rfl | hds
        · omega
        · exact hI.used_le d hds
    · intro _
      refine ⟨?_, ?_, ?_, ?_, ?_⟩
      · intro d hd
        rcases hmem2 d hd with rfl | ⟨hd1, _⟩
        · show (c.slots ++ [addr]).length = c.mp_used + 1
          rw [List.length_append, hp1 c (findCluster_spec hfind).1]
          rfl
        · exact hp1 d hd1
      · intro d hd
        rcases hmem2 d hd with rfl | ⟨hd1, hd2⟩
        · left
          rfl
        · rcases hp2 d hd1 with rfl | hfull
          · exact absurd rfl hd2
          · exact Or.inr hfull
      · intro h
        simp at h
      · intro cid0 hcid0
        have : cid0 = c.cid := by
          injection hcid0 with h
          exact h.symm
        subst this
        rw [hfind2]
        rfl
      · intro d hd hcurd
        have hdc : d.cid = c.cid := by
          injection hcurd with h
          exact h.symm
        rcases hmem2 d hd with rfl | ⟨_, hd2⟩
        · simp
        · exact absurd hdc hd2
    · intro heq
      have hfull2 : ∀ d ∈ cls2, d.slots.length = cfg.clusterN := by
        refine all_full_of_dvd (u := c.cid) ?_ hnodup2 ?_ ?_ ?_
        · intro d hd
          rcases hmem2 d hd with rfl | ⟨hd1, hd2⟩
          · exact Or.inr rfl
          · rcases hp2 d hd1 with rfl | hfull
            · exact absurd rfl hd2
            · exact Or.inl hfull
        · intro d hd
          rcases hmem2 d hd with rfl | ⟨hd1, hd2⟩
          · show (c.slots ++ [addr]).length ≤ cfg.clusterN
            rw [List.length_append, hp1 c (findCluster_spec hfind).1]
            simpa using hused
          · rw [hp1 d hd1]
            rcases hmem1 d hd1 with rfl | hds
            · exact hused.le
            · exact hI.used_le d hds
        · intro d hd hdc
          rcases hmem2 d hd with rfl | ⟨_, hd2⟩
          · simp
          · exact absurd hdc hd2
        · rw [hlen2, heq]
          exact hdvd
      exact hfull2
  exact engineInv_clusters_perm hmid (lruPromote_perm c.cid cls2)

theorem engineInv_insert {β : Type} {cfg : Config β} {s : PState β} (hI : EngineInv cfg s)
    {addr : Nat} (haddr : tblLookup addr s.table = none)
    (hlt : s.corr_err_counters < cfg.max_corr_err_counters)
    (hN : 0 < cfg.clusterN)
    (hdvd : cfg.clusterN ∣ cfg.max_corr_err_counters) :
    EngineInv cfg (account_insert cfg s addr) := by
  obtain ⟨p1, p2, p3, p4, p5⟩ := hI.phaseA hlt
  cases hcur : s.cur with
  | none =>
    have hnil : s.clusters = [] := p3 hcur
    have he : mempage_alloc_choose cfg s =
        (⟨s.next_cid, [], 0⟩, (⟨s.next_cid, [], 0⟩ : Cluster) :: s.clusters,
          s.next_cid + 1) := by
      unfold mempage_alloc_choose
      rw [hcur]
      rfl
    unfold account_insert
    rw [he]
    refine engineInv_insert_aux (c := ⟨s.next_cid, [], 0⟩) hI haddr hlt hdvd
      ?_ ?_ ?_ ?_ ?_ ?_ ?_ ?_
    · simp [findCluster]
    · simp [allSlots]
    · intro d hd
      exact List.mem_cons.mp hd
    · rw [hnil]
      simp
    · intro d hd
      rw [hnil] at hd
      simp at hd
      rw [hd]
      dsimp only
      omega
    · exact hN
    · intro d hd
      rw [hnil] at hd
      simp at hd
      rw [hd]
      rfl
    · intro d hd
      rw [hnil] at hd
      simp at hd
      exact Or.inl hd
  | some cid0 =>
    cases hfc0 : findCluster cid0 s.clusters with
    | none =>
      exfalso
      have h4 := p4 cid0 hcur
      rw [hfc0] at h4
      simp at h4
    | some c0 =>
      obtain ⟨hc0mem, hc0cid⟩ := findCluster_spec hfc0
      have hma : (Option.bind s.cur fun cid => findCluster cid s.clusters) = some c0 := by
        rw [hcur]
        exact hfc0
      by_cases hfull : c0.mp_used = cfg.clusterN
      · have he : mempage_alloc_choose cfg s =
            (⟨s.next_cid, [], 0⟩, (⟨s.next_cid, [], 0⟩ : Cluster) :: s.clusters,
              s.next_cid + 1) := by
          unfold mempage_alloc_choose
          rw [hma]
          simp [hfull]
        unfold account_insert
        rw [he]
        refine engineInv_insert_aux (c := ⟨s.next_cid, [], 0⟩) hI haddr hlt hdvd
          ?_ ?_ ?_ ?_ ?_ ?_ ?_ ?_
        · simp [findCluster]
        · simp [allSlots]
        · intro d hd
          exact List.mem_cons.mp hd
        · simp only [List.map_cons, List.nodup_cons]
          refine ⟨?_, hI.ids_nodup⟩
          intro hmem
          obtain ⟨d, hd, hdc⟩ := List.mem_map.mp hmem
          have := hI.ids_lt d hd
          omega
        · intro d hd
          rcases List.mem_cons.mp hd with rfl | hd2
          · dsimp only
            omega
          · have := hI.ids_lt d hd2
            dsimp only
            omega
        · exact hN
        · intro d hd
          rcases List.mem_cons.mp hd with rfl | hd2
          · rfl
          · exact p1 d hd2
        · intro d hd
          rcases List.mem_cons.mp hd with rfl | hd2
          · exact Or.inl rfl
          · rcases p2 d hd2 with hcd | hfull2
            · rw [hcur] at hcd
              have hdcid : d.cid = cid0 := by
                injection hcd with h
                exact h.symm
              have hdc0 : d = c0 :=
                nodup_cid_inj hI.ids_nodup d hd2 c0 hc0mem (by rw [hdcid, hc0cid])
              right
              rw [hdc0, p1 c0 hc0mem]
              exact hfull
            · exact Or.inr hfull2
      · have he : mempage_alloc_choose cfg s = (c0, s.clusters, s.next_cid) := by
          unfold mempage_alloc_choose
          rw [hma]
          simp [hfull]
        unfold account_insert
        rw [he]
        refine engineInv_insert_aux (c := c0) hI haddr hlt hdvd
          ?_ ?_ ?_ ?_ ?_ ?_ ?_ ?_
        · rw [hc0cid]
          exact hfc0
        · rfl
        · intro d hd
          exact Or.inr hd
        · exact hI.ids_nodup
        · exact hI.ids_lt
        · have := hI.used_le c0 hc0mem
          omega
        · exact p1
        · intro d hd
          rcases p2 d hd with hcd | hfull2
          · rw [hcur] at hcd
            have hdcid : d.cid = cid0 := by
              injection hcd with h
              exact h.symm
            exact Or.inl (nodup_cid_inj hI.ids_nodup d hd c0 hc0mem (by rw [hdcid, hc0cid]))
          · exact Or.inr hfull2

theorem findCluster_of_mem_nodup {cls : List Cluster} (hnd : (cls.map Cluster.cid).Nodup)
    {c : Cluster} (hc : c ∈ cls) : findCluster c.cid cls = some c := by
  induction cls with
  | nil => simp at hc
  | cons c0 cs ih =>
    simp only [List.map_cons, List.nodup_cons] at hnd
    rcases List.mem_cons.mp hc with rfl | h2
    · simp [findCluster]
    · by_cases h1 : c0.cid = c.cid
      · exfalso
        apply hnd.1
        rw [h1]
        exact List.mem_map_of_mem Cluster.cid h2
      · simp only [findCluster, h1, if_false]
        exact ih hnd.2 h2

theorem account_replace_fst {β : Type} (cfg : Config β) (s : PState β) (addr t : Nat)
    {c : Cluster} {cls1 : List Cluster} {victim : Nat}
    (hch : mempage_replace_choose cfg s = (c, cls1))
    (hvic : c.slots.get? c.mp_used = some victim) :
    (account_replace cfg s addr t).1 =
      { s with
        table := tblInsert (freshMempage cfg addr) (tblErase victim s.table),
        clusters := lruPromote c.cid (updateCluster c.cid
          (fun c0 => { c0 with slots := c0.slots.set c.mp_used addr,
                                mp_used := c.mp_used + 1 }) cls1),
        cur := some c.cid,
        mp_repalcement :=
          { bucket := (cfg.bucket_account_repl s.mp_repalcement.bucket 1 t).1,
            count := s.mp_repalcement.count + 1 } } := by
  unfold account_replace
  rw [hch]
  dsimp only
  rw [hvic]

theorem account_replace_snd {β : Type} (cfg : Config β) (s : PState β) (addr t : Nat) :
    (account_replace cfg s addr t).2 =
      if (cfg.bucket_account_repl s.mp_repalcement.bucket 1 t).2 = true then
        [Ev.trigger "page-error-counter" false]
      else [] := by
  unfold account_replace
  dsimp only

theorem engineInv_replace_aux {β : Type} {cfg : Config β} {s : PState β}
    (hI : EngineInv cfg s) {addr t : Nat} {c : Cluster} {cls1 : List Cluster} {victim : Nat}
    (haddr : tblLookup addr s.table = none)
    (heq : s.corr_err_counters = cfg.max_corr_err_counters)
    (hfind : findCluster c.cid cls1 = some c)
    (hvic : c.slots.get? c.mp_used = some victim)
    (hslots : allSlots cls1 = allSlots s.clusters)
    (hcid1 : cls1.map Cluster.cid = s.clusters.map Cluster.cid)
    (hused1 : ∀ d ∈ cls1, d.mp_used ≤ cfg.clusterN)
    (hfull1 : ∀ d ∈ cls1, d.slots.length = cfg.clusterN)
    (husedlt : c.mp_used < cfg.clusterN) :
    EngineInv cfg
      { s with
        table := tblInsert (freshMempage cfg addr) (tblErase victim s.table),
        clusters := lruPromote c.cid (updateCluster c.cid
          (fun c0 => { c0 with slots := c0.slots.set c.mp_used addr,
                                mp_used := c.mp_used + 1 }) cls1),
        cur := some c.cid,
        mp_repalcement :=
          { bucket := (cfg.bucket_account_repl s.mp_repalcement.bucket 1 t).1,
            count := s.mp_repalcement.count + 1 } } := by
  have haddr' : addr ∉ s.table.map Mempage.addr := (tblLookup_eq_none_iff addr s.table).mp haddr
  have hnodup1 : (cls1.map Cluster.cid).Nodup := by
    rw [hcid1]
    exact hI.ids_nodup
  have hcmem : c ∈ cls1 := (findCluster_spec hfind).1
  have hvick : victim ∈ s.table.map Mempage.addr := by
    have h1 : victim ∈ c.slots := List.get?_mem hvic
    have h2 : victim ∈ allSlots cls1 := mem_allSlots_of_mem hcmem h1
    rw [hslots] at h2
    exact hI.perm.mem_iff.mp h2
  have haddrE : addr ∉ (tblErase victim s.table).map Mempage.addr := by
    intro hmem
    exact haddr' (((tblErase_sublist victim s.table).map Mempage.addr).mem hmem)
  have hsortE : ((tblErase victim s.table).map Mempage.addr).Pairwise (· < ·) :=
    hI.sorted.sublist ((tblErase_sublist victim s.table).map Mempage.addr)
  have hfc : ∀ c0 : Cluster,
      ((fun c0 : Cluster => { c0 with slots := c0.slots.set c.mp_used addr,
                                      mp_used := c.mp_used + 1 }) c0).cid = c0.cid := fun _ => rfl
  generalize hcls2 : updateCluster c.cid
    (fun c0 => { c0 with slots := c0.slots.set c.mp_used addr,
                          mp_used := c.mp_used + 1 }) cls1 = cls2
  have hP1 : (victim :: allSlots cls2).Perm (addr :: allSlots cls1) := by
    rw [← hcls2]
    exact allSlots_updateCluster_set hfind hvic rfl
  rw [hslots] at hP1
  have hkeysE : (s.table.map Mempage.addr).Perm
      (victim :: (tblErase victim s.table).map Mempage.addr) := keys_tblErase hvick
  have hPerm2 : (allSlots cls2).Perm ((tblInsert (freshMempage cfg addr)
      (tblErase victim s.table)).map Mempage.addr) := by
    have haddr2 : (freshMempage cfg addr).addr ∉ (tblErase victim s.table).map Mempage.addr :=
      haddrE
    have h1 : (victim :: allSlots cls2).Perm
        (victim :: addr :: (tblErase victim s.table).map Mempage.addr) := by
      refine hP1.trans ?_
      refine (List.Perm.cons addr (hI.perm.trans hkeysE)).trans ?_
      exact List.Perm.swap victim addr _
    have h2 := h1.cons_inv
    exact h2.trans (keys_tblInsert haddr2).symm
  have hnodup2 : (cls2.map Cluster.cid).Nodup := by
    rw [← hcls2, map_cid_updateCluster hfc]
    exact hnodup1
  have hmem2 : ∀ d ∈ cls2,
      d = { c with slots := c.slots.set c.mp_used addr, mp_used := c.mp_used + 1 } ∨
        (d ∈ cls1 ∧ d.cid ≠ c.cid) := by
    intro d hd
    rw [← hcls2] at hd
    exact mem_updateCluster_nodup hnodup1 hfind hd
  have hcid2 : cls2.map Cluster.cid = s.clusters.map Cluster.cid := by
    rw [← hcls2, map_cid_updateCluster hfc]
    exact hcid1
  have hmid : EngineInv cfg
      { s with
        table := tblInsert (freshMempage cfg addr) (tblErase victim s.table),
        clusters := cls2,
        cur := some c.cid,
        mp_repalcement :=
          { bucket := (cfg.bucket_account_repl s.mp_repalcement.bucket 1 t).1,
            count := s.mp_repalcement.count + 1 } } := by
    refine ⟨?_, ?_, ?_, ?_, ?_, ?_, ?_, ?_, ?_⟩ <;> dsimp only
    · exact sorted_tblInsert haddrE hsortE
    · rw [length_tblInsert haddrE]
      have h3 := length_tblErase hvick
      rw [hI.corr_eq]
      omega
    · exact hI.corr_le
    · exact hPerm2
    · exact hnodup2
    · intro d hd
      have h1 : d.cid ∈ s.clusters.map Cluster.cid := by
        rw [← hcid2]
        exact List.mem_map_of_mem Cluster.cid hd
      obtain ⟨d0, hd0, hd0c⟩ := List.mem_map.mp h1
      rw [← hd0c]
      exact hI.ids_lt d0 hd0
    · intro d hd
      rcases hmem2 d hd with rfl | ⟨hd1, _⟩
      · show c.mp_used + 1 ≤ cfg.clusterN
        omega
      · exact hused1 d hd1
    · intro h
      omega
    · intro _ d hd
      rcases hmem2 d hd with rfl | ⟨hd1, _⟩
      · show (c.slots.set c.mp_used addr).length = cfg.clusterN
        rw [List.length_set]
        exact hfull1 c hcmem
      · exact hfull1 d hd1
  exact engineInv_clusters_perm hmid (lruPromote_perm c.cid cls2)

theorem engineInv_replace {β : Type} {cfg : Config β} {s : PState β} (hI : EngineInv cfg s)
    {addr : Nat} (t : Nat) (haddr : tblLookup addr s.table = none)
    (hge : ¬ s.corr_err_counters < cfg.max_corr_err_counters)
    (hN : 0 < cfg.clusterN)
    (hpos : 0 < cfg.max_corr_err_counters) :
    EngineInv cfg (account_replace cfg s addr t).1 := by
  have heq : s.corr_err_counters = cfg.max_corr_err_counters := by
    have := hI.corr_le
    omega
  have hBfull := hI.phaseB heq
  have hnonnil : s.clusters ≠ [] := by
    intro hnil
    have h1 := hI.perm.length_eq
    rw [hnil] at h1
    simp only [allSlots, List.length_nil, List.length_map] at h1
    have h3 := hI.corr_eq
    omega
  have hreset : ∀ hma : (Option.bind s.cur fun cid => findCluster cid s.clusters) = none ∨
      (∃ c0, (Option.bind s.cur fun cid => findCluster cid s.clusters) = some c0 ∧
        c0.mp_used = cfg.clusterN),
      EngineInv cfg (account_replace cfg s addr t).1 := by
    intro hma
    obtain ⟨cl, hcl⟩ : ∃ cl, s.clusters.getLast? = some cl := by
      cases hgl : s.clusters.getLast? with
      | some cl => exact ⟨cl, rfl⟩
      | none =>
        exfalso
        have h1 := List.getLast?_isSome.mpr hnonnil
        rw [hgl] at h1
        simp at h1
    have hclmem : cl ∈ s.clusters := List.mem_of_mem_getLast? hcl
    have hr : resetLastCluster s.clusters =
        ({ cl with mp_used := 0 },
          updateCluster cl.cid (fun c => { c with mp_used := 0 }) s.clusters) := by
      unfold resetLastCluster
      rw [hcl]
    have hch : mempage_replace_choose cfg s =
        ({ cl with mp_used := 0 },
          updateCluster cl.cid (fun c => { c with mp_used := 0 }) s.clusters) := by
      rw [← hr]
      unfold mempage_replace_choose
      rcases hma with hma | ⟨c0, hma, hfull⟩
      · rw [hma]
      · rw [hma]
        exact if_pos hfull
    have hlenN : cl.slots.length = cfg.clusterN := hBfull cl hclmem
    have h0 : 0 < cl.slots.length := by omega
    have hvic : ({ cl with mp_used := 0 } : Cluster).slots.get?
        ({ cl with mp_used := 0 } : Cluster).mp_used =
        some (cl.slots.get ⟨0, h0⟩) := List.get?_eq_get h0
    rw [account_replace_fst cfg s addr t hch hvic]
    refine engineInv_replace_aux hI haddr heq ?_ hvic ?_ ?_ ?_ ?_ ?_
    · show findCluster cl.cid _ = _
      rw [findCluster_updateCluster (f := fun c => { c with mp_used := 0 }) (fun _ => rfl),
        findCluster_of_mem_nodup hI.ids_nodup hclmem]
      rfl
    · exact allSlots_updateCluster_slots_eq
        (f := fun c => { c with mp_used := 0 }) (fun _ => rfl) s.clusters
    · exact map_cid_updateCluster
        (f := fun c => { c with mp_used := 0 }) (fun _ => rfl) s.clusters
    · intro d hd
      rcases mem_updateCluster hd with h1 | ⟨c1, hc1, _, rfl⟩
      · exact hI.used_le d h1
      · show 0 ≤ cfg.clusterN
        omega
    · intro d hd
      rcases mem_updateCluster hd with h1 | ⟨c1, hc1, _, rfl⟩
      · exact hBfull d h1
      · show c1.slots.length = cfg.clusterN
        exact hBfull c1 hc1
    · show 0 < cfg.clusterN
      exact hN
  cases hcur : s.cur with
  | none =>
    apply hreset
    left
    rw [hcur]
    rfl
  | some cid0 =>
    cases hfc0 : findCluster cid0 s.clusters with
    | none =>
      apply hreset
      left
      rw [hcur]
      exact hfc0
    | some c0 =>
      obtain ⟨hc0mem, hc0cid⟩ := findCluster_spec hfc0
      have hma : (Option.bind s.cur fun cid => findCluster cid s.clusters) = some c0 := by
        rw [hcur]
        exact hfc0
      by_cases hfull : c0.mp_used = cfg.clusterN
      · exact hreset (Or.inr ⟨c0, hma, hfull⟩)
      · have hch : mempage_replace_choose cfg s = (c0, s.clusters) := by
          unfold mempage_replace_choose
          rw [hma]
          simp [hfull]
        have hlenN : c0.slots.length = cfg.clusterN := hBfull c0 hc0mem
        have husedlt : c0.mp_used < cfg.clusterN := by
          have := hI.used_le c0 hc0mem
          omega
        have h0 : c0.mp_used < c0.slots.length := by omega
        have hvic : c0.slots.get? c0.mp_used = some (c0.slots.get ⟨c0.mp_used, h0⟩) :=
          List.get?_eq_get h0
        rw [account_replace_fst cfg s addr t hch hvic]
        refine engineInv_replace_aux hI haddr heq ?_ hvic rfl rfl hI.used_le hBfull husedlt
        rw [hc0cid]
        exact hfc0

theorem engineInv_tail {β : Type} {cfg : Config β} {s : PState β} (hI : EngineInv cfg s)
    (a t : Nat) : EngineInv cfg (account_page_error_tail cfg s a t).1 := by
  obtain ⟨h1, h2, h3, h4, _⟩ := tail_fields cfg s a t
  exact engineInv_congr hI (tail_keys cfg s a t) (tail_length cfg s a t) h1 h2 h3 h4

theorem engineInv_step {β : Type} {cfg : Config β} {s : PState β} (hI : EngineInv cfg s)
    (m : Mce) (hN : 0 < cfg.clusterN) (hdvd : cfg.clusterN ∣ cfg.max_corr_err_counters)
    (hpos : 0 < cfg.max_corr_err_counters) :
    EngineInv cfg (account_page_error cfg s m).1 := by
  cases hf : event_filtered cfg m with
  | true =>
    rw [account_page_error_of_filtered cfg s m hf]
    exact hI
  | false =>
    rw [account_page_error_of_not_filtered cfg s m hf]
    cases hlk : tblLookup (pageAlign m.addr) s.table with
    | some mp =>
      rw [main_hit cfg s m hlk]
      exact engineInv_tail (engineInv_clusters_perm hI (lru_touch_perm _ _)) _ _
    | none =>
      by_cases hlt : s.corr_err_counters < cfg.max_corr_err_counters
      · rw [main_insert cfg s m hlk hlt]
        exact engineInv_tail (engineInv_insert hI hlk hlt hN hdvd) _ _
      · rw [main_replace cfg s m hlk hlt]
        exact engineInv_tail (engineInv_replace hI m.time hlk hlt hN hpos) _ _

theorem engineInv_processEvents {β : Type} {cfg : Config β}
    (hN : 0 < cfg.clusterN) (hdvd : cfg.clusterN ∣ cfg.max_corr_err_counters)
    (hpos : 0 < cfg.max_corr_err_counters) (s : PState β) (hI : EngineInv cfg s)
    (ms : List Mce) : EngineInv cfg (processEvents cfg s ms).1 := by
  induction ms generalizing s with
  | nil => exact hI
  | cons m ms ih =>
    unfold processEvents
    dsimp only
    exact ih _ (engineInv_step hI m hN hdvd hpos)

theorem roundup_dvd (x y : Nat) : y ∣ roundup x y := Dvd.intro_left _ rfl

theorem roundup_pos {x y : Nat} (hx : 0 < x) (hy : 0 < y) : 0 < roundup x y := by
  unfold roundup
  have h1 : 1 ≤ (x + y - 1) / y := (Nat.le_div_iff_mul_le hy).mpr (by omega)
  have h2 := Nat.mul_le_mul_right y h1
  rw [Nat.one_mul] at h2
  omega

/-! ### Classification of traces -/

theorem do_consecutive_loop_writes (env : String → Nat → Int) (addr : Nat) (ty : otype) :
    ∀ fuel i, ∀ e ∈ (do_consecutive_loop env addr ty i fuel).2, e.isWrite = true := by
  intro fuel
  induction fuel with
  | zero =>
    intro i e he
    simp [do_consecutive_loop] at he
  | succ fuel ih =>
    intro i e he
    unfold do_consecutive_loop at he
    dsimp only at he
    by_cases h0 : i = 0 <;> simp only [h0, if_true, if_false] at he
    · split at he
      · simp [do_memory_offline] at he
        rw [he]
        rfl
      · simp [do_memory_offline] at he
        rcases he with rfl | he
        · rfl
        · exact ih _ e he
    · split at he
      · simp [do_memory_offline] at he
        rw [he]
        rfl
      · split at he
        · simp [do_memory_offline] at he
          rcases he with rfl | rfl <;> rfl
        · simp [do_memory_offline] at he
          rcases he with rfl | rfl | he
          · rfl
          · rfl
          · exact ih _ e he

theorem memory_offline_writes (env : String → Nat → Int) (o : otype) (a : Nat) :
    ∀ e ∈ (memory_offline env o a).2, e.isWrite = true := by
  intro e he
  unfold memory_offline at he
  dsimp only at he
  split at he
  · split at he
    · simp [do_memory_offline] at he
      rcases he with rfl | rfl <;> rfl
    · simp [do_memory_offline] at he
      rw [he]
      rfl
  · exact do_consecutive_loop_writes env a o _ _ e he

theorem offline_action_writes {β : Type} (cfg : Config β) (mp : Mempage β) (a : Nat) :
    ∀ e ∈ (offline_action cfg mp a).2, e.isWrite = true := by
  intro e he
  unfold offline_action at he
  dsimp only at he
  split at he
  · simp at he
  · split at he <;> exact memory_offline_writes cfg.sysfs_write cfg.offline a e he

theorem offline_action_empty {β : Type} (cfg : Config β) (mp : Mempage β) (a : Nat)
    (h : cfg.offline.toNat ≤ otype.OFFLINE_ACCOUNT.toNat) :
    offline_action cfg mp a = (mp, []) := by
  unfold offline_action
  rw [if_pos h]

theorem ptu_events {β : Type} (cfg : Config β) (mp : Mempage β) (a t : Nat) :
    ∀ e ∈ (page_threshold_update cfg mp a t).2, e.isWrite = true ∨
      e = Ev.trigger "page" false ∨ e = Ev.trigger "page_pre_soft" true ∨
      e = Ev.trigger "page_post_soft" true := by
  intro e he
  unfold page_threshold_update at he
  dsimp only at he
  split at he
  · split at he
    · simp at he
    · split at he
      · simp only [List.mem_append, List.mem_cons, List.not_mem_nil, or_false] at he
        rcases he with ((rfl | rfl) | he) | rfl
        · exact Or.inr (Or.inl rfl)
        · exact Or.inr (Or.inr (Or.inl rfl))
        · exact Or.inl (offline_action_writes cfg _ a e he)
        · exact Or.inr (Or.inr (Or.inr rfl))
      · simp only [List.singleton_append, List.mem_cons] at he
        rcases he with rfl | he
        · exact Or.inr (Or.inl rfl)
        · exact Or.inl (offline_action_writes cfg _ a e he)
  · simp at he

theorem tail_events {β : Type} (cfg : Config β) (s : PState β) (a t : Nat) :
    ∀ e ∈ (account_page_error_tail cfg s a t).2, e.isWrite = true ∨
      e = Ev.trigger "page" false ∨ e = Ev.trigger "page_pre_soft" true ∨
      e = Ev.trigger "page_post_soft" true := by
  intro e he
  unfold account_page_error_tail at he
  split at he
  · simp at he
  · exact ptu_events cfg _ a t e he

theorem ptu_no_writes {β : Type} (cfg : Config β) (mp : Mempage β) (a t : Nat)
    (h : cfg.offline.toNat ≤ otype.OFFLINE_ACCOUNT.toNat) :
    ∀ e ∈ (page_threshold_update cfg mp a t).2, e.isWrite = false := by
  intro e he
  unfold page_threshold_update at he
  dsimp only at he
  split at he
  · split at he
    · simp at he
    · split at he
      · rename_i hpol
        exfalso
        rcases hpol with hpol | hpol <;> rw [hpol] at h <;> simp [otype.toNat] at h
      · rw [offline_action_empty cfg _ a h] at he
        simp at he
        rw [he]
        rfl
  · simp at he

theorem tail_no_writes {β : Type} (cfg : Config β) (s : PState β) (a t : Nat)
    (h : cfg.offline.toNat ≤ otype.OFFLINE_ACCOUNT.toNat) :
    ∀ e ∈ (account_page_error_tail cfg s a t).2, e.isWrite = false := by
  intro e he
  unfold account_page_error_tail at he
  split at he
  · simp at he
  · exact ptu_no_writes cfg _ a t h e he

theorem tail_no_counter_trigger {β : Type} (cfg : Config β) (s : PState β) (a t : Nat) :
    Ev.trigger "page-error-counter" false ∉ (account_page_error_tail cfg s a t).2 := by
  intro hmem
  rcases tail_events cfg s a t _ hmem with hw | he | he | he
  · simp [Ev.isWrite] at hw
  · exact (by decide : Ev.trigger "page-error-counter" false ≠ Ev.trigger "page" false) he
  · exact (by decide :
      Ev.trigger "page-error-counter" false ≠ Ev.trigger "page_pre_soft" true) he
  · exact (by decide :
      Ev.trigger "page-error-counter" false ≠ Ev.trigger "page_post_soft" true) he

theorem account_insert_repl {β : Type} (cfg : Config β) (s : PState β) (a : Nat) :
    (account_insert cfg s a).mp_repalcement = s.mp_repalcement := rfl

theorem account_replace_repl {β : Type} (cfg : Config β) (s : PState β) (a t : Nat) :
    (account_replace cfg s a t).1.mp_repalcement =
      { bucket := (cfg.bucket_account_repl s.mp_repalcement.bucket 1 t).1,
        count := s.mp_repalcement.count + 1 } := rfl

theorem step_mp_repalcement {β : Type} (cfg : Config β) (s : PState β) (m : Mce) :
    (account_page_error cfg s m).1.mp_repalcement =
      if forced_eviction cfg s m then
        { bucket := (cfg.bucket_account_repl s.mp_repalcement.bucket 1 m.time).1,
          count := s.mp_repalcement.count + 1 }
      else s.mp_repalcement := by
  cases hf : event_filtered cfg m with
  | true =>
    rw [account_page_error_of_filtered cfg s m hf]
    have hfe : forced_eviction cfg s m = false := by simp [forced_eviction, hf]
    simp [hfe]
  | false =>
    rw [account_page_error_of_not_filtered cfg s m hf]
    cases hlk : tblLookup (pageAlign m.addr) s.table with
    | some mp =>
      rw [main_hit cfg s m hlk]
      have hfe : forced_eviction cfg s m = false := by simp [forced_eviction, hlk]
      rw [(tail_fields cfg _ _ _).2.2.2.2]
      simp [hfe]
    | none =>
      by_cases hlt : s.corr_err_counters < cfg.max_corr_err_counters
      · rw [main_insert cfg s m hlk hlt]
        rw [(tail_fields cfg _ _ _).2.2.2.2]
        have hnle : ¬ cfg.max_corr_err_counters ≤ s.corr_err_counters := Nat.not_le.mpr hlt
        have hfe : forced_eviction cfg s m = false := by
          simp [forced_eviction, hnle]
        rw [account_insert_repl]
        simp [hfe]
      · rw [main_replace cfg s m hlk hlt]
        have hfe : forced_eviction cfg s m = true := by
          simp [forced_eviction, hf, hlk, Nat.not_lt.mp hlt]
        show (account_page_error_tail cfg (account_replace cfg s (pageAlign m.addr)
          m.time).1 (pageAlign m.addr) m.time).1.mp_repalcement = _
        rw [(tail_fields cfg _ _ _).2.2.2.2, account_replace_repl]
        simp [hfe]

theorem processEvents_repl_count {β : Type} (cfg : Config β) :
    ∀ (ms : List Mce) (s : PState β),
      (processEvents cfg s ms).1.mp_repalcement.count =
        s.mp_repalcement.count + countEvictions cfg s ms := by
  intro ms
  induction ms with
  | nil =>
    intro s
    simp [processEvents, countEvictions]
  | cons m ms ih =>
    intro s
    unfold processEvents countEvictions
    dsimp only
    rw [ih]
    rw [step_mp_repalcement]
    by_cases hfe : forced_eviction cfg s m = true
    · simp [hfe]
      omega
    · simp at hfe
      simp [hfe]

theorem step_no_writes {β : Type} (cfg : Config β) (s : PState β) (m : Mce)
    (h : cfg.offline.toNat ≤ otype.OFFLINE_ACCOUNT.toNat) :
    ∀ e ∈ (account_page_error cfg s m).2, e.isWrite = false := by
  intro e he
  cases hf : event_filtered cfg m with
  | true =>
    rw [account_page_error_of_filtered cfg s m hf] at he
    simp at he
  | false =>
    rw [account_page_error_of_not_filtered cfg s m hf] at he
    cases hlk : tblLookup (pageAlign m.addr) s.table with
    | some mp =>
      rw [main_hit cfg s m hlk] at he
      exact tail_no_writes cfg _ _ _ h e he
    | none =>
      by_cases hlt : s.corr_err_counters < cfg.max_corr_err_counters
      · rw [main_insert cfg s m hlk hlt] at he
        exact tail_no_writes cfg _ _ _ h e he
      · rw [main_replace cfg s m hlk hlt] at he
        dsimp only at he
        rcases List.mem_append.mp he with he | he
        · rw [account_replace_snd] at he
          split at he
          · simp at he
            rw [he]
            rfl
          · simp at he
        · exact tail_no_writes cfg _ _ _ h e he

theorem processEvents_no_writes {β : Type} (cfg : Config β)
    (h : cfg.offline.toNat ≤ otype.OFFLINE_ACCOUNT.toNat) :
    ∀ (ms : List Mce) (s : PState β), ∀ e ∈ (processEvents cfg s ms).2,
      e.isWrite = false := by
  intro ms
  induction ms with
  | nil =>
    intro s e he
    simp [processEvents] at he
  | cons m ms ih =>
    intro s e he
    unfold processEvents at he
    dsimp only at he
    rcases List.mem_append.mp he with he | he
    · exact step_no_writes cfg s m h e he
    · exact ih _ e he

/-! ### The claims -/

/-- C1: code-bug evidence.  Under policy `soft` (and likewise `hard`), the
offline action for the page-aligned address 0x100000 writes eleven page
addresses to the soft-offline sysfs node — the faulty page plus the
±1..±5-page window of `do_consecutive_memory_offline` — and not only the
single faulty page address, contradicting the specified behavior that
exactly the one triggering page is offlined. -/
theorem C1_window_offline_code_behavior :
    (offline_action cfgSoft
        { offlined := PAGE_ONLINE, triggered := true, addr := 0x100000, count := 3,
          bucket := 0 } 0x100000).2 =
      [0x100000, 0x101000, 0xff000, 0x102000, 0xfe000, 0x103000, 0xfd000,
        0x104000, 0xfc000, 0x105000, 0xfb000].map
        (fun a => Ev.sysfsWrite soft_offline_node a) ∧
    (offline_action cfgSoft
        { offlined := PAGE_ONLINE, triggered := true, addr := 0x100000, count := 3,
          bucket := 0 } 0x100000).2 ≠
      [Ev.sysfsWrite soft_offline_node 0x100000] := by
  constructor
  · decide
  · decide

/-- C5: an event rejected by one of the early filters — policy off, valid
address bit clear, uncorrected bit set, or the duplicate-APEI quirk —
returns early with no change to the table, any record, or the replacement
counter, and with no side effect. -/
theorem C5_filtered_event_no_state_change {β : Type} (cfg : Config β) (s : PState β)
    (m : Mce)
    (h : cfg.offline = otype.OFFLINE_OFF ∨ m.status_addrv = false ∨ m.status_uc = true ∨
      (cfg.cputype = cputype_t.CPU_SANDY_BRIDGE_EP ∧ m.bank = 1 ∧ effcpu m = 0)) :
    account_page_error cfg s m = (s, []) := by
  apply account_page_error_of_filtered
  unfold event_filtered
  rcases h with h | h | h | h
  · simp [h]
  · simp [h]
  · simp [h]
  · simp [h.1, h.2.1, h.2.2]

/-- C5 witness: the uncorrected event `mUc` is dropped with no state
change. -/
theorem C5_filtered_event_witness :
    account_page_error cfgSoft sOfflined mUc = (sOfflined, []) :=
  C5_filtered_event_no_state_change cfgSoft sOfflined mUc (Or.inr (Or.inr (Or.inl rfl)))

/-- C6: under `soft-then-hard` the offliner writes the single page address
to the soft node; exactly when the soft write fails it writes the same
address to the hard node and the overall result is the hard attempt's
result; on soft success the result is success with no hard write. -/
theorem C6_soft_then_hard (env : String → Nat → Int) (a : Nat) :
    memory_offline env otype.OFFLINE_SOFT_THEN_HARD a =
      if env soft_offline_node a < 0 then
        (env hard_offline_node a,
          [Ev.sysfsWrite soft_offline_node a, Ev.sysfsWrite hard_offline_node a])
      else (0, [Ev.sysfsWrite soft_offline_node a]) := by
  unfold memory_offline
  rw [if_pos rfl]
  unfold do_memory_offline kernel_offline
  dsimp only
  split <;> rfl

/-- C7: when the policy is `off` or `account` (policy not past account),
processing any event sequence never issues a sysfs write, no matter how
many threshold crossings occur. -/
theorem C7_policy_account_no_writes {β : Type} (cfg : Config β) (s : PState β)
    (ms : List Mce)
    (h : cfg.offline = otype.OFFLINE_OFF ∨ cfg.offline = otype.OFFLINE_ACCOUNT) :
    (processEvents cfg s ms).2.all (fun e => !e.isWrite) = true := by
  rw [List.all_eq_true]
  intro e he
  have h2 : cfg.offline.toNat ≤ otype.OFFLINE_ACCOUNT.toNat := by
    rcases h with h | h <;> simp [h, otype.toNat]
  have h3 := processEvents_no_writes cfg h2 ms s e he
  rw [h3]
  rfl

/-- C7 witness: three threshold-crossing events under policy `account`
produce a trace with no sysfs writes. -/
theorem C7_policy_account_witness :
    (processEvents cfgAccount (initState cfgAccount) [mEv, mEv, mEv]).2.all
      (fun e => !e.isWrite) = true :=
  C7_policy_account_no_writes cfgAccount (initState cfgAccount) [mEv, mEv, mEv]
    (Or.inr rfl)

/-- C8: on the Sandy Bridge EP family, an event with bank 1 and effective
CPU id 0 is dropped with no state change; on any other family the same
bank/cpu fields (with the remaining filters passing) proceed into the
normal main path. -/
theorem C8_duplicate_apei_quirk {β : Type} (cfg cfg2 : Config β) (s s2 : PState β)
    (m : Mce)
    (hfam : cfg.cputype = cputype_t.CPU_SANDY_BRIDGE_EP)
    (hbank : m.bank = 1) (hcpu : effcpu m = 0)
    (hfam2 : cfg2.cputype ≠ cputype_t.CPU_SANDY_BRIDGE_EP)
    (hoff2 : cfg2.offline ≠ otype.OFFLINE_OFF)
    (hav : m.status_addrv = true) (huc : m.status_uc = false) :
    account_page_error cfg s m = (s, []) ∧
    account_page_error cfg2 s2 m = account_page_error_main cfg2 s2 m := by
  constructor
  · apply account_page_error_of_filtered
    unfold event_filtered
    simp [hfam, hbank, hcpu]
  · apply account_page_error_of_not_filtered
    unfold event_filtered
    simp [hfam2, hoff2, hav, huc]

/-- C8 witness: the `bank=1, cpu=0` event is dropped on the quirk family
and processed normally on a generic family. -/
theorem C8_duplicate_apei_quirk_witness :
    account_page_error cfgSnb sOfflined mQuirk = (sOfflined, []) ∧
    account_page_error cfgSoft sOfflined mQuirk =
      account_page_error_main cfgSoft sOfflined mQuirk :=
  C8_duplicate_apei_quirk cfgSnb cfgSoft sOfflined sOfflined mQuirk rfl rfl rfl
    (by decide) (by decide) rfl rfl

/-- C10: with an empty table the Inspector writes no output at all; the
header line is emitted only when at least one record exists, and is then
the first line. -/
theorem C10_dump_empty_table {β : Type} (bOut : β → String) (tbl : List (Mempage β))
    (hne : tbl ≠ []) :
    dump_page_errors bOut ([] : List (Mempage β)) = [] ∧
    (dump_page_errors bOut tbl).head? = some dump_header := by
  constructor
  · rfl
  · cases tbl with
    | nil => exact absurd rfl hne
    | cons p ps => rfl

/-- C10 witness: the empty table prints nothing; a one-record table starts
with the header. -/
theorem C10_dump_empty_table_witness :
    dump_page_errors Nat.repr ([] : List (Mempage Nat)) = [] ∧
    (dump_page_errors Nat.repr sOfflined.table).head? = some dump_header :=
  C10_dump_empty_table Nat.repr sOfflined.table (by decide)

/-- C2: an event on a record whose page is already `offline` or
`offline-failed` that crosses the threshold issues no sysfs write and
dispatches no trigger (the step's trace is empty), while the record's
error count is incremented and its bucket advanced; the offline state and
triggered flag are unchanged and the replacement counter is untouched. -/
theorem C2_offlined_page_keeps_accounting {β : Type} (cfg : Config β) (s : PState β)
    (m : Mce) (mp : Mempage β)
    (hf : event_filtered cfg m = false)
    (hlk : tblLookup (pageAlign m.addr) s.table = some mp)
    (hoff : mp.offlined ≠ PAGE_ONLINE)
    (hcross : (cfg.bucket_account_page mp.bucket 1 m.time).2 = true) :
    (account_page_error cfg s m).2 = [] ∧
    tblLookup (pageAlign m.addr) (account_page_error cfg s m).1.table =
      some { mp with count := mp.count + 1,
                     bucket := (cfg.bucket_account_page mp.bucket 1 m.time).1 } ∧
    (account_page_error cfg s m).1.mp_repalcement = s.mp_repalcement := by
  rw [account_page_error_of_not_filtered cfg s m hf, main_hit cfg s m hlk]
  have hlk1 : tblLookup (pageAlign m.addr)
      ({ s with clusters := lru_touch (pageAlign m.addr) s.clusters } : PState β).table =
      some mp := hlk
  have hptu : page_threshold_update cfg mp (pageAlign m.addr) m.time =
      ({ mp with count := mp.count + 1,
                 bucket := (cfg.bucket_account_page mp.bucket 1 m.time).1 }, []) := by
    unfold page_threshold_update
    dsimp only
    rw [if_pos hcross, if_pos hoff]
  unfold account_page_error_tail
  rw [hlk1]
  dsimp only
  rw [hptu]
  dsimp only
  refine ⟨rfl, ?_, rfl⟩
  have hv : ({ mp with count := mp.count + 1,
                       bucket := (cfg.bucket_account_page mp.bucket 1 m.time).1 } :
      Mempage β).addr = pageAlign m.addr := (tblLookup_eq_some hlk).2
  exact tblLookup_setRecord hv hlk1

/-- C2 witness: an event on the already-offlined page 0x1000 crosses the
threshold, leaves an empty trace, and only advances the count and
bucket. -/
theorem C2_offlined_page_witness :
    (account_page_error cfgSoft sOfflined mHit).2 = [] ∧
    tblLookup (pageAlign mHit.addr) (account_page_error cfgSoft sOfflined mHit).1.table =
      some { offlined := PAGE_OFFLINE, triggered := true, addr := 0x1000, count := 6,
             bucket := 1 } ∧
    (account_page_error cfgSoft sOfflined mHit).1.mp_repalcement =
      sOfflined.mp_repalcement :=
  C2_offlined_page_keeps_accounting cfgSoft sOfflined mHit
    { offlined := PAGE_OFFLINE, triggered := true, addr := 0x1000, count := 5, bucket := 0 }
    (by decide) (by decide) (by decide) (by decide)

/-- C4: after any processed sequence the replacement counter equals the
number of forced evictions; a forced-eviction step feeds 1 to the
replacement bucket at the event timestamp, and the replacement-threshold
trigger is dispatched (asynchronously, sync flag false) exactly when that
bucket call reports a crossing. -/
theorem C4_replacement_counter {β : Type} (cfg : Config β) (ms : List Mce)
    (s : PState β) (m : Mce)
    (hf : event_filtered cfg m = false)
    (hmiss : tblLookup (pageAlign m.addr) s.table = none)
    (hfull : ¬ s.corr_err_counters < cfg.max_corr_err_counters) :
    (processEvents cfg (initState cfg) ms).1.mp_repalcement.count =
      countEvictions cfg (initState cfg) ms ∧
    (account_page_error cfg s m).1.mp_repalcement.bucket =
      (cfg.bucket_account_repl s.mp_repalcement.bucket 1 m.time).1 ∧
    (Ev.trigger "page-error-counter" false ∈ (account_page_error cfg s m).2 ↔
      (cfg.bucket_account_repl s.mp_repalcement.bucket 1 m.time).2 = true) := by
  have hstep : account_page_error cfg s m =
      ((account_page_error_tail cfg (account_replace cfg s (pageAlign m.addr)
          m.time).1 (pageAlign m.addr) m.time).1,
        (account_replace cfg s (pageAlign m.addr) m.time).2 ++
          (account_page_error_tail cfg (account_replace cfg s (pageAlign m.addr)
            m.time).1 (pageAlign m.addr) m.time).2) := by
    rw [account_page_error_of_not_filtered cfg s m hf]
    exact main_replace cfg s m hmiss hfull
  refine ⟨?_, ?_, ?_⟩
  · rw [processEvents_repl_count]
    simp [initState]
  · rw [hstep]
    show (account_page_error_tail cfg _ _ _).1.mp_repalcement.bucket = _
    rw [(tail_fields cfg _ _ _).2.2.2.2, account_replace_repl]
  · rw [hstep]
    show Ev.trigger "page-error-counter" false ∈ _ ++ _ ↔ _
    rw [List.mem_append, account_replace_snd]
    constructor
    · rintro (hmem | hmem)
      · split at hmem
        · rename_i hc
          exact hc
        · simp at hmem
      · exact absurd hmem (tail_no_counter_trigger cfg _ _ _)
    · intro hcross
      left
      rw [if_pos hcross]
      exact List.mem_singleton.mpr rfl

/-- C4 witness: processing two distinct addresses with capacity 1 yields
one forced eviction and a matching counter; a forced-eviction step on the
full state `sOfflined` advances the replacement bucket and, with the
concrete bucket not yet crossing, dispatches no replacement trigger. -/
theorem C4_replacement_counter_witness :
    (processEvents cfgQuiet (initState cfgQuiet) [mEv, mEv2]).1.mp_repalcement.count =
      countEvictions cfgQuiet (initState cfgQuiet) [mEv, mEv2] ∧
    (account_page_error cfgQuiet sOfflined mEv2).1.mp_repalcement.bucket =
      (cfgQuiet.bucket_account_repl sOfflined.mp_repalcement.bucket 1 mEv2.time).1 ∧
    (Ev.trigger "page-error-counter" false ∈
        (account_page_error cfgQuiet sOfflined mEv2).2 ↔
      (cfgQuiet.bucket_account_repl sOfflined.mp_repalcement.bucket 1 mEv2.time).2 =
        true) :=
  C4_replacement_counter cfgQuiet [mEv, mEv2] sOfflined mEv2 (by decide) (by decide)
    (by decide)

theorem account_replace_corr {β : Type} (cfg : Config β) (s : PState β) (a t : Nat) :
    (account_replace cfg s a t).1.corr_err_counters = s.corr_err_counters := rfl

theorem dump_loop_pos {β : Type} (bOut : β → String) :
    ∀ (tbl : List (Mempage β)) (k : Nat), k ≠ 0 →
      dump_loop bOut tbl k = (tbl.map (fun p => [dump_line bOut p, ""])).flatten := by
  intro tbl
  induction tbl with
  | nil =>
    intro k hk
    simp [dump_loop]
  | cons p ps ih =>
    intro k hk
    unfold dump_loop
    rw [if_neg hk]
    rw [ih (k + 1) (by omega)]
    simp

theorem dump_page_errors_eq {β : Type} (bOut : β → String) (tbl : List (Mempage β))
    (hne : tbl ≠ []) :
    dump_page_errors bOut tbl =
      dump_header :: (tbl.map (fun p => [dump_line bOut p, ""])).flatten := by
  cases tbl with
  | nil => exact absurd rfl hne
  | cons p ps =>
    show dump_loop bOut (p :: ps) 0 = _
    unfold dump_loop
    rw [if_pos rfl]
    rw [dump_loop_pos bOut ps 1 (by omega)]
    simp

/-- C9: the Inspector is a pure function of the table.  On any reachable
nonempty table it emits the header line first and then, for every record
in ascending address order, exactly one line of the form
`<hex-addr>: total <count> seen "<bucket-summary>" <state>[ triggered]`
(each record line is followed by the empty line that `fputc('\n')`
produces); the `triggered` tag appears exactly when the record's flag is
set, and the table's addresses are strictly ascending. -/
theorem C9_dump_format {β : Type} (cfg : Config β) (bOut : β → String)
    (hN : 0 < cfg.clusterN) (hdvd : cfg.clusterN ∣ cfg.max_corr_err_counters)
    (hpos : 0 < cfg.max_corr_err_counters) (ms : List Mce)
    (hne : (processEvents cfg (initState cfg) ms).1.table ≠ []) :
    dump_page_errors bOut (processEvents cfg (initState cfg) ms).1.table =
      dump_header ::
        ((processEvents cfg (initState cfg) ms).1.table.map (fun p =>
          [hexStr p.addr ++ ": total " ++ toString p.count ++ " seen \"" ++
            bOut p.bucket ++ "\" " ++ page_state p.offlined ++
            (if p.triggered then " triggered" else ""), ""])).flatten ∧
    ((processEvents cfg (initState cfg) ms).1.table.map Mempage.addr).Pairwise
      (· < ·) := by
  constructor
  · exact dump_page_errors_eq bOut _ hne
  · exact (engineInv_processEvents hN hdvd hpos _ (engineInv_init cfg hpos) ms).sorted

/-- C9 witness: after one event the Inspector prints the header, the
record line for page 0x5000, and the blank line, and the table is sorted. -/
theorem C9_dump_format_witness :
    dump_page_errors Nat.repr
        (processEvents cfgQuiet (initState cfgQuiet) [mEv]).1.table =
      [dump_header, "5000: total 1 seen \"1\" online", ""] ∧
    ((processEvents cfgQuiet (initState cfgQuiet) [mEv]).1.table.map
      Mempage.addr).Pairwise (· < ·) := by
  have h := C9_dump_format cfgQuiet Nat.repr (by decide) (by decide) (by decide) [mEv]
    (by decide)
  exact ⟨h.1.trans (by rfl), h.2⟩

/-- C3: with `max_corr_err_counters` rounded up at startup to a multiple
of the cluster capacity `N`, the page table never holds more than
`max_corr_err_counters` records after any processed sequence; and when the
table is full, a further unfiltered event at a fresh address forces a
replacement instead of an insert: the replacement count increments and the
table size stays exactly at the maximum. -/
theorem C3_capacity_bound {β : Type} (cfg : Config β) (m0 : Nat)
    (hm0 : 0 < m0) (hN : 0 < cfg.clusterN)
    (hmax : cfg.max_corr_err_counters = roundup m0 cfg.clusterN)
    (ms ms2 : List Mce) (m : Mce)
    (hf : event_filtered cfg m = false)
    (hmiss : tblLookup (pageAlign m.addr)
      (processEvents cfg (initState cfg) ms2).1.table = none)
    (hfull : (processEvents cfg (initState cfg) ms2).1.table.length =
      cfg.max_corr_err_counters) :
    (processEvents cfg (initState cfg) ms).1.table.length ≤
      cfg.max_corr_err_counters ∧
    (account_page_error cfg (processEvents cfg (initState cfg) ms2).1
        m).1.mp_repalcement.count =
      (processEvents cfg (initState cfg) ms2).1.mp_repalcement.count + 1 ∧
    (account_page_error cfg (processEvents cfg (initState cfg) ms2).1 m).1.table.length =
      cfg.max_corr_err_counters := by
  have hdvd : cfg.clusterN ∣ cfg.max_corr_err_counters := by
    rw [hmax]
    exact roundup_dvd m0 cfg.clusterN
  have hpos : 0 < cfg.max_corr_err_counters := by
    rw [hmax]
    exact roundup_pos hm0 hN
  have hI := engineInv_processEvents hN hdvd hpos _ (engineInv_init cfg hpos) ms
  have hI2 := engineInv_processEvents hN hdvd hpos _ (engineInv_init cfg hpos) ms2
  have hcorr2 : (processEvents cfg (initState cfg) ms2).1.corr_err_counters =
      cfg.max_corr_err_counters := by
    rw [hI2.corr_eq]
    exact hfull
  have hge : ¬ (processEvents cfg (initState cfg) ms2).1.corr_err_counters <
      cfg.max_corr_err_counters := by
    omega
  refine ⟨?_, ?_, ?_⟩
  · have h1 := hI.corr_eq
    have h2 := hI.corr_le
    omega
  · rw [step_mp_repalcement]
    have hfe : forced_eviction cfg (processEvents cfg (initState cfg) ms2).1 m = true := by
      simp [forced_eviction, hf, hmiss]
      omega
    simp [hfe]
  · have hIstep := engineInv_step hI2 m hN hdvd hpos
    have hstep : account_page_error cfg (processEvents cfg (initState cfg) ms2).1 m =
        ((account_page_error_tail cfg (account_replace cfg
            (processEvents cfg (initState cfg) ms2).1 (pageAlign m.addr) m.time).1
            (pageAlign m.addr) m.time).1,
          (account_replace cfg (processEvents cfg (initState cfg) ms2).1
            (pageAlign m.addr) m.time).2 ++
            (account_page_error_tail cfg (account_replace cfg
              (processEvents cfg (initState cfg) ms2).1 (pageAlign m.addr) m.time).1
              (pageAlign m.addr) m.time).2) := by
      rw [account_page_error_of_not_filtered _ _ _ hf]
      exact main_replace cfg _ m hmiss hge
    rw [hstep] at hIstep ⊢
    show (account_page_error_tail cfg _ _ _).1.table.length = _
    rw [tail_length]
    have hIrep := engineInv_replace hI2 m.time hmiss hge hN hpos
    have h1 := hIrep.corr_eq
    rw [account_replace_corr] at h1
    omega

/-- C3 witness: with one-slot clusters and maximum 1 (which equals
`roundup 1 1`), a three-event run stays within one record, and a second
distinct address on the full table replaces instead of inserting. -/
theorem C3_capacity_bound_witness :
    (processEvents cfgQuiet (initState cfgQuiet) [mEv, mEv2, mEv]).1.table.length ≤
      cfgQuiet.max_corr_err_counters ∧
    (account_page_error cfgQuiet (processEvents cfgQuiet (initState cfgQuiet)
        [mEv]).1 mEv2).1.mp_repalcement.count =
      (processEvents cfgQuiet (initState cfgQuiet) [mEv]).1.mp_repalcement.count + 1 ∧
    (account_page_error cfgQuiet (processEvents cfgQuiet (initState cfgQuiet)
        [mEv]).1 mEv2).1.table.length = cfgQuiet.max_corr_err_counters :=
  C3_capacity_bound cfgQuiet 1 (by decide) (by decide) (by decide) [mEv, mEv2, mEv]
    [mEv] mEv2 (by decide) (by decide) (by decide)
